import Mathlib

/-!
Verification development for `src/js/compiler.js` of fluent.js: the compiler
that turns parsed localization syntax trees into callable evaluators (entities,
attributes, macros), with selector-driven branch resolution, interpolation with
reentrancy detection, and a yield/resolve two-mode evaluation protocol.

The JavaScript is shallowly embedded as follows.  A compiled evaluator closure
becomes a constructor of the inductive `Expr`; invoking a closure becomes
evaluating its `Expr` under the fuel-indexed interpreter `go`.  JavaScript's
mutable heap objects that the code relies on — the index-cursor arrays consumed
by `shift()`, the `locals` objects mutated through `__this__`/`__resolve__`
assignments, and the per-compiled-node `dirty` flag closed over by
`ComplexString` — live in an explicit state `St` threaded through evaluation.
Exceptions propagate as `Except.error` but, as in JavaScript, they do not roll
the heap back: `go` returns the state alongside the outcome.  Machine floats
are out of scope; numbers are modelled as `Int` (the claims under study never
depend on non-integer arithmetic), with `Value.nan` standing in for NaN.
-/

/-- Errors surfaced at evaluation time.  `cyclic` is the thrown
"Recursive reference" string of `complexString`; `typeError` stands for the
TypeErrors JavaScript raises (calling a non-function, `shift` on a non-array,
reading a property of `undefined`, looking up a missing attribute). -/
inductive Err where
  | cyclic
  | typeError
  | outOfFuel
deriving DecidableEq, Repr

/-- Compile-time error: `EXPRESSION_TYPES[node.type]` has no entry, so
`new EXPRESSION_TYPES[node.type](node)` throws (the spec's MalformedNode). -/
inductive CErr where
  | malformedNode
deriving DecidableEq, Repr

/-- Compiled evaluators, one constructor per `EXPRESSION_TYPES` entry of the
source (`keyValuePair` compiles to its value's evaluator and a
`logicalExpression` with a falsy operator compiles to just its left operand,
so neither needs a constructor of its own).  `arrayLit`/`hashLit` carry the
default branch precomputed at compile time; `complexString` carries the
identity of its compiled node (`tag`), the key into the reentrancy-marker
table.  For `property`/`attributeE`, when `computed` is false the source
stores only the literal name and compiles no property node; the trailing
`Expr` field is then the unused placeholder `.stringE ""`. -/
inductive Expr where
  | identifier (name : String)
  | thisE
  | variableE (name : String)
  | globalE (name : String)
  | number (content : Int)
  | stringE (content : String)
  | arrayLit (content : List Expr) (defaultKey : Nat)
  | hashLit (content : List (String × Expr)) (defaultKey : Option String)
  | complexString (tag : Nat) (content : List Expr)
  | unary (operator : String) (operand : Expr)
  | binary (operator : String) (left right : Expr)
  | logical (operator : String) (left right : Expr)
  | conditional (test consequent alternate : Expr)
  | call (callee : Expr) (arguments : List Expr)
  | property (expression : Expr) (computed : Bool) (propName : String) (propEv : Expr)
  | attributeE (expression : Expr) (computed : Bool) (attrName : String) (attrEv : Expr)

/-- A compiled `Attribute`: id, locality flag, compiled value evaluator.
`value` is `none` when the definition node's value was falsy
(`Expression` returns `null` for a falsy node); invoking it then throws. -/
structure Attr0 where
  id : String
  localF : Bool
  value : Option Expr

/-- A compiled `Entity`.  `index` is a reference into the state's array heap:
`this.index` is a JavaScript array built once at compile time and — crucially
for the claims about immutability — mutable afterwards.  `attributes` is the
id-keyed mapping built by `this.attributes[attr.id] = new Attribute(attr)`. -/
structure EntityObj where
  id : String
  value : Option Expr
  index : Nat
  attributes : List (String × Attr0)
  localF : Bool

/-- Runtime values.  `closure e` is a compiled evaluator flowing as a value
(a thunk: array/hash branch, cursor element, caller-data entry); `fn` is a
compiled macro; `arr`/`objRef` are references into the state's heap of
JavaScript arrays / plain objects; `entity` an Entity instance.  The source
compares with `typeof`/`instanceof`, which the constructors reflect. -/
inductive Value where
  | undefV
  | nullV
  | bool (b : Bool)
  | num (n : Int)
  | nan
  | str (s : String)
  | closure (e : Expr)
  | fn (params : List String) (body : Expr)
  | entity (ent : EntityObj)
  | arr (r : Nat)
  | objRef (r : Nat)

/-- The mutable heap: index-cursor arrays, plain objects (locals, attribute
maps), the set of `complexString` tags whose `dirty` flag is currently set,
and the next fresh reference. -/
structure St where
  arrays : List (Nat × List Value)
  objs : List (Nat × List (String × Value))
  dirty : List Nat
  next : Nat

/-- Association-list lookup (JavaScript property read, `undefined` when
absent is handled by callers via `Option`). -/
def assoc {κ α : Type} [DecidableEq κ] : List (κ × α) → κ → Option α
  | [], _ => none
  | (k', v) :: t, k => if k' = k then some v else assoc t k

/-- Association-list update: overwrite in place when the key exists (JavaScript
property assignment keeps insertion order), append otherwise. -/
def setK {κ α : Type} [DecidableEq κ] : List (κ × α) → κ → α → List (κ × α)
  | [], k, v => [(k, v)]
  | (k', v') :: t, k, v => if k' = k then (k, v) :: t else (k', v') :: setK t k v

/-- Property read defaulting to `undefined`, as JavaScript does. -/
def lookupD (l : List (String × Value)) (k : String) : Value :=
  (assoc l k).getD .undefV

def St.getArr (st : St) (r : Nat) : Option (List Value) :=
  assoc st.arrays r

def St.setArr (st : St) (r : Nat) (l : List Value) : St :=
  { st with arrays := setK st.arrays r l }

def St.allocArr (st : St) (l : List Value) : Nat × St :=
  (st.next, { st with arrays := setK st.arrays st.next l, next := st.next + 1 })

def St.getObj (st : St) (r : Nat) : List (String × Value) :=
  (assoc st.objs r).getD []

def St.allocObj (st : St) (props : List (String × Value)) : Nat × St :=
  (st.next, { st with objs := setK st.objs st.next props, next := st.next + 1 })

/-- Read property `k` of the value `v` (used for `locals[...]`).  Only plain
objects carry properties in this model; reading off any other value yields
`undefined` (the reachable non-object receivers are arrays and they carry no
string-named data properties here). -/
def St.getProp (st : St) (v : Value) (k : String) : Value :=
  match v with
  | .objRef r => lookupD (st.getObj r) k
  | _ => .undefV

/-- Write property `k := x` on the value `v` (used for `locals.__this__ = …`,
`locals.__resolve__ = …`, `attrs[attr.id] = …`).  A write to a non-object
receiver is dropped; nothing in the embedded claims reads such a property
back. -/
def St.setProp (st : St) (v : Value) (k : String) (x : Value) : St :=
  match v with
  | .objRef r => { st with objs := setK st.objs r (setK (st.getObj r) k x) }
  | _ => st

/-- Indexed read `a[i]` with a numeric index (macro argument binding). -/
def indexGet (st : St) (a : Value) (i : Nat) : Value :=
  match a with
  | .arr r => ((st.getArr r).getD []).getD i .undefV
  | .objRef r => lookupD (st.getObj r) (toString i)
  | _ => .undefV

/-- JavaScript truthiness on our value space. -/
def truthy : Value → Bool
  | .undefV => false
  | .nullV => false
  | .bool b => b
  | .num n => n != 0
  | .nan => false
  | .str s => s != ""
  | _ => true

/-- The `typeof v == 'function'` test of the source. -/
def isFunc : Value → Bool
  | .closure _ => true
  | .fn _ _ => true
  | _ => false

/-- `index.shift()`: destructively pops the head of the heap array `v` refers
to; `undefined` on an empty array; a TypeError when `v` is not an array. -/
def shiftIdx (st : St) (v : Value) : (Except Err Value) × St :=
  match v with
  | .arr r =>
    match st.getArr r with
    | some [] => (.ok .undefV, st)
    | some (h :: t) => (.ok h, st.setArr r t)
    | none => (.ok .undefV, st)
  | _ => (.error .typeError, st)

/-- JavaScript `ToNumber` on the cases the operators can meet here; receivers
that would invoke `valueOf`/`toString` (objects, functions) and non-integer
numeric strings collapse to NaN, which no studied claim depends on. -/
def toNumber : Value → Option Int
  | .num n => some n
  | .bool b => some (if b then 1 else 0)
  | .nullV => some 0
  | .str s => s.toInt?
  | _ => none

/-- String conversion for `+` concatenation. -/
def jsToString : Value → String
  | .str s => s
  | .num n => toString n
  | .bool b => toString b
  | .undefV => "undefined"
  | .nullV => "null"
  | .nan => "NaN"
  | _ => "[object]"

/-- The `UnaryOperator` table: `-`, `+`, `!`; any other token leaves the
operator `undefined` and invoking it at evaluation time throws (`none`). -/
def applyUnary (token : String) (v : Value) : Option Value :=
  if token = "-" then some (match toNumber v with | some n => .num (-n) | none => .nan)
  else if token = "+" then some (match toNumber v with | some n => .num n | none => .nan)
  else if token = "!" then some (.bool (!truthy v))
  else none

/-- Numeric result helper: NaN when either side fails to coerce. -/
def numOp2 (l r : Value) (f : Int → Int → Value) : Value :=
  match toNumber l, toNumber r with
  | some a, some b => f a b
  | _, _ => .nan

/-- Loose equality on the primitive values that reach `==` here. -/
def looseEq : Value → Value → Bool
  | .undefV, .undefV => true
  | .undefV, .nullV => true
  | .nullV, .undefV => true
  | .nullV, .nullV => true
  | .str a, .str b => a == b
  | .arr a, .arr b => a == b
  | .objRef a, .objRef b => a == b
  | a, b => match toNumber a, toNumber b with
            | some x, some y => x == y
            | _, _ => false

/-- The `BinaryOperator` table.  `==`/`!=` implement the loose-equality cases
arising on this value space; `+` concatenates when either side is a string;
`/` models only exact integer division (floats are out of scope) and division
by zero as NaN. -/
def applyBinary (token : String) (l r : Value) : Option Value :=
  if token = "==" then some (.bool (looseEq l r))
  else if token = "!=" then some (.bool (!looseEq l r))
  else if token = "<" then some (numOp2 l r (fun a b => .bool (a < b)))
  else if token = "<=" then some (numOp2 l r (fun a b => .bool (a ≤ b)))
  else if token = ">" then some (numOp2 l r (fun a b => .bool (a > b)))
  else if token = ">=" then some (numOp2 l r (fun a b => .bool (a ≥ b)))
  else if token = "+" then
    some (match l, r with
          | .str a, _ => .str (a ++ jsToString r)
          | _, .str b => .str (jsToString l ++ b)
          | _, _ => numOp2 l r (fun a b => .num (a + b)))
  else if token = "-" then some (numOp2 l r (fun a b => .num (a - b)))
  else if token = "*" then some (numOp2 l r (fun a b => .num (a * b)))
  else if token = "/" then some (numOp2 l r (fun a b => if b = 0 then .nan else .num (a / b)))
  else if token = "%" then some (numOp2 l r (fun a b => if b = 0 then .nan else .num (a % b)))
  else none

/-- The `LogicalOperator` table: value-preserving `&&` / `||`; an unknown
token is `undefined` and throws when invoked. -/
def applyLogical (token : String) (l r : Value) : Option Value :=
  if token = "&&" then some (if truthy l then r else l)
  else if token = "||" then some (if truthy l then l else r)
  else none

/-- Decimal value of a character list, `none` when any character is not a
digit (an explicitly recursive stand-in for `String.toNat?`, which the kernel
cannot unfold). -/
def charsToNat (cs : List Char) : Option Nat :=
  cs.foldl (fun acc c => match acc with
    | none => none
    | some v => if c.isDigit then some (v * 10 + (c.toNat - 48)) else none) (some 0)

/-- `content[key]` on a compiled array literal's branch list: JavaScript array
indexing by a number or a canonical numeric string (round-tripping through
`toString` rules out forms like "01" or "").  Non-index property reads such
as `content["length"]` are outside the embedding. -/
def arrGetIdx (content : List Expr) (key : Value) : Option Expr :=
  match key with
  | .num n => if n < 0 then none else content.get? n.toNat
  | .str s => match charsToNat s.toList with
              | some i => if toString i = s then content.get? i else none
              | none => none
  | _ => none

/-- The property key `content[key]` coerces to on a hash literal's mapping. -/
def jsPropKey : Value → Option String
  | .str s => some s
  | .num n => some (toString n)
  | .bool b => some (toString b)
  | .nan => some "NaN"
  | _ => none

/-- `content[key]` on a compiled hash literal's id-keyed mapping. -/
def hashGet (content : List (String × Expr)) (key : Value) : Option Expr :=
  (jsPropKey key).bind (assoc content)

/-- Branch selection of `arrayLiteral`: `if (key && content[key]) member =
content[key]; else member = content[defaultKey]`. -/
def selectArr (content : List Expr) (dk : Nat) (k : Value) : Option Expr :=
  if truthy k then
    match arrGetIdx content k with
    | some m => some m
    | none => content.get? dk
  else content.get? dk

/-- Branch selection of `hashLiteral`. -/
def selectHash (content : List (String × Expr)) (dk : Option String) (k : Value) :
    Option Expr :=
  if truthy k then
    match hashGet content k with
    | some m => some m
    | none => dk.bind (assoc content)
  else dk.bind (assoc content)

/-- The context object: `env[name]` lookups by `Identifier` read `vars`,
`env.GLOBALS[name]` lookups by `Global` read `globals`. -/
structure Env where
  vars : List (String × Value)
  globals : List (String × Value)

/-- Error-propagating sequencing of two stateful evaluation steps; JavaScript
exceptions unwind without restoring the heap, so the state rides along. -/
def bindE (x : (Except Err Value) × St) (f : Value → St → (Except Err Value) × St) :
    (Except Err Value) × St :=
  match x with
  | (.ok v, st) => f v st
  | (.error e, st) => (.error e, st)

/-- Binding of macro parameters: `node.args.forEach(function(arg, i) {
locals[arg.name] = args[i]; })`, starting from the fresh empty `locals`. -/
def bindArgsFrom (st : St) (a : Value) : Nat → List String → List (String × Value) →
    List (String × Value)
  | _, [], acc => acc
  | i, p :: t, acc => bindArgsFrom st a (i + 1) t (setK acc p (indexGet st a i))

def bindArgs (st : St) (ps : List String) (a : Value) : List (String × Value) :=
  bindArgsFrom st a 0 ps []

/-- The value the compiled property selector contributes to the index cursor:
the compiled evaluator when computed, the literal name string otherwise. -/
def propVal (computed : Bool) (nm : String) (ev : Expr) : Value :=
  if computed then .closure ev else .str nm

/-- The pending evaluation requests of the interpreter: invoking a compiled
evaluator (`expr`), calling a value as a function (`call1`, covering both
macro invocation and re-invoking a thunk/cursor element), the drive-to-string
loop of `complexString` (`drive`/`parts`), argument evaluation of
`CallExpression` (`callArgs`), the `Entity.prototype` methods
(`entGet` = `_get`, `entYield` = `_yield`, `entResolve` = `_resolve`,
`pubGet` = `get`, `getAttr` = `getAttribute`, `attrsList`/`getAttrs` =
`getAttributes`, `getEntityR` = `getEntity`) and the `Attribute.prototype`
methods (`attrGet` = `get` with its while-loop `attrLoop`). -/
inductive Req where
  | expr (e : Expr) (locals : Value) (index : Value)
  | call1 (f : Value) (a : Value)
  | drive (part : Value) (locals : Value)
  | parts (rem : List Expr) (acc : List String) (locals : Value)
  | callArgs (cv : Value) (rem : List Expr) (acc : List Value) (locals : Value)
  | entGet (ent : EntityObj) (locals : Value) (index : Value)
  | entYield (ent : EntityObj) (locals : Value) (index : Value)
  | entResolve (ent : EntityObj) (locals : Value) (index : Value)
  | pubGet (ent : EntityObj) (index : Value)
  | getAttr (ent : EntityObj) (name : Value)
  | attrGet (attr : Attr0) (locals : Value) (index : Value)
  | attrLoop (ret : Value) (locals : Value) (index : Value)
  | attrsList (ent : EntityObj) (rem : List (String × Attr0)) (accR : Nat)
  | getAttrs (ent : EntityObj)
  | getEntityR (ent : EntityObj)

/-- The interpreter.  `env` (the context, holding the compiled resource and
`GLOBALS`) and `data` (the caller-supplied per-call overrides) are read-only
and fixed for a whole resolution, exactly as the source passes them through
unchanged.  Fuel only bounds recursion depth: the source can recurse through
thunks, entities and macros without bound (the spec notes multi-entity cycles
exhaust the stack), so every step consumes one unit. -/
def go (env : Env) (data : List (String × Value)) :
    Nat → Req → St → (Except Err Value) × St
  | 0, _, st => (.error .outOfFuel, st)
  | fuel + 1, req, st =>
    match req with
    | .expr e locals index =>
      match e with
      -- function identifier(locals, env, data) { return env[name]; }
      | .identifier name => (.ok (lookupD env.vars name), st)
      -- function thisIdentifier(locals, env, data) { return locals.__this__; }
      | .thisE => (.ok (st.getProp locals "__this__"), st)
      -- function variable(locals, env, data): locals[name] unless it is
      -- undefined, else data[name]
      | .variableE name =>
        match st.getProp locals name with
        | .undefV => (.ok (lookupD data name), st)
        | v => (.ok v, st)
      -- function global(locals, env, data) { return env.GLOBALS[name]; }
      | .globalE name => (.ok (lookupD env.globals name), st)
      | .number n => (.ok (.num n), st)
      | .stringE s => (.ok (.str s), st)
      -- function arrayLiteral(locals, env, data, index)
      | .arrayLit content dk =>
        bindE (shiftIdx st index) (fun kv st1 =>
          bindE (if isFunc kv then go env data fuel (.call1 kv locals) st1
                 else (.ok kv, st1)) (fun k st2 =>
            if truthy (st2.getProp locals "__resolve__") then
              match selectArr content dk k with
              | some m => go env data fuel (.expr m locals index) st2
              | none => (.error .typeError, st2)
            else
              match selectArr content dk k with
              | some m => (.ok (.closure m), st2)
              | none => (.ok .undefV, st2)))
      -- function hashLiteral(locals, env, data, index), with
      -- var index = index || []
      | .hashLit content dk =>
        match (if truthy index then (index, st) else
               let p := st.allocArr []
               (Value.arr p.1, p.2)) with
        | (idx, st0) =>
          bindE (shiftIdx st0 idx) (fun kv st1 =>
            bindE (if isFunc kv then go env data fuel (.call1 kv locals) st1
                   else (.ok kv, st1)) (fun k st2 =>
              if truthy (st2.getProp locals "__resolve__") then
                match selectHash content dk k with
                | some m => go env data fuel (.expr m locals idx) st2
                | none => (.error .typeError, st2)
              else
                match selectHash content dk k with
                | some m => (.ok (.closure m), st2)
                | none => (.ok .undefV, st2)))
      -- function complexString(locals, env, data): throw on the dirty flag,
      -- set it, evaluate and drive the parts, clear it only on success
      | .complexString tag content =>
        if tag ∈ st.dirty then (.error .cyclic, st)
        else
          match go env data fuel (.parts content [] locals)
                  { st with dirty := tag :: st.dirty } with
          | (.ok v, st1) =>
            (.ok v, { st1 with dirty := st1.dirty.filter (fun x => x ≠ tag) })
          | (.error er, st1) => (.error er, st1)
      -- function unaryExpression(locals, env, data)
      | .unary op operand =>
        bindE (go env data fuel (.expr operand locals .undefV) st) (fun v st1 =>
          match applyUnary op v with
          | some r => (.ok r, st1)
          | none => (.error .typeError, st1))
      -- function binaryExpression(locals, env, data)
      | .binary op l r =>
        bindE (go env data fuel (.expr l locals .undefV) st) (fun lv st1 =>
          bindE (go env data fuel (.expr r locals .undefV) st1) (fun rv st2 =>
            match applyBinary op lv rv with
            | some res => (.ok res, st2)
            | none => (.error .typeError, st2)))
      -- function logicalExpression(locals, env, data): evaluates both
      -- operands, applies the operator, but has no return statement — the
      -- combined result is dropped and the call yields undefined
      | .logical op l r =>
        bindE (go env data fuel (.expr l locals .undefV) st) (fun lv st1 =>
          bindE (go env data fuel (.expr r locals .undefV) st1) (fun rv st2 =>
            match applyLogical op lv rv with
            | some _ => (.ok .undefV, st2)
            | none => (.error .typeError, st2)))
      -- function conditionalExpression(locals, env, data)
      | .conditional t c a =>
        bindE (go env data fuel (.expr t locals .undefV) st) (fun tv st1 =>
          if truthy tv then go env data fuel (.expr c locals .undefV) st1
          else go env data fuel (.expr a locals .undefV) st1)
      -- function callExpression(locals, env, data)
      | .call callee args =>
        bindE (go env data fuel (.expr callee locals .undefV) st) (fun cv st1 =>
          go env data fuel (.callArgs cv args [] locals) st1)
      -- function propertyExpression(locals, env, data)
      | .property ex computed pname pev =>
        bindE (go env data fuel (.expr ex locals .undefV) st) (fun ret st1 =>
          let p := st1.allocArr [propVal computed pname pev]
          match ret with
          | .entity ent => go env data fuel (.entYield ent locals (.arr p.1)) p.2
          | .closure ce => go env data fuel (.expr ce locals (.arr p.1)) p.2
          | .fn _ _ => go env data fuel (.call1 ret locals) p.2
          | _ => (.error .typeError, p.2))
      -- function attributeExpression(locals, env, data)
      | .attributeE ex computed aname aev =>
        bindE (go env data fuel (.expr ex locals .undefV) st) (fun ev st1 =>
          match ev with
          | .entity ent =>
            go env data fuel (.getAttr ent (propVal computed aname aev)) st1
          | _ => (.error .typeError, st1))
    -- invoking a value f with a single JavaScript argument a (plus the fixed
    -- env and data): a compiled evaluator closure receives a as its locals; a
    -- macro binds its parameters from a into a fresh locals object and
    -- evaluates its body there (function(args, env, data) of Macro)
    | .call1 f a =>
      match f with
      | .closure e => go env data fuel (.expr e a .undefV) st
      | .fn ps body =>
        match ps, a with
        | _ :: _, .undefV => (.error .typeError, st)
        | _ :: _, .nullV => (.error .typeError, st)
        | _, _ =>
          let p := st.allocObj (bindArgs st ps a)
          go env data fuel (.expr body (.objRef p.1) .undefV) p.2
      | _ => (.error .typeError, st)
    -- the while-loop of complexString driving one part to a string
    | .drive part locals =>
      match part with
      | .str s => (.ok (.str s), st)
      | .entity ent =>
        bindE (go env data fuel (.entResolve ent locals .undefV) st) (fun v st1 =>
          go env data fuel (.drive v locals) st1)
      | .closure _ =>
        bindE (go env data fuel (.call1 part locals) st) (fun v st1 =>
          go env data fuel (.drive v locals) st1)
      | .fn _ _ =>
        bindE (go env data fuel (.call1 part locals) st) (fun v st1 =>
          go env data fuel (.drive v locals) st1)
      | _ => (.error .typeError, st)
    -- the forEach over complexString's parts, joining with ''
    | .parts rem acc locals =>
      match rem with
      | [] => (.ok (.str (String.join acc.reverse)), st)
      | e :: t =>
        bindE (go env data fuel (.expr e locals .undefV) st) (fun p st1 =>
          bindE (go env data fuel (.drive p locals) st1) (fun pv st2 =>
            match pv with
            | .str s => go env data fuel (.parts t (s :: acc) locals) st2
            | _ => (.error .typeError, st2)))
    -- resolved_args evaluation of callExpression, then the call itself
    | .callArgs cv rem acc locals =>
      match rem with
      | [] =>
        let p := st.allocArr acc.reverse
        go env data fuel (.call1 cv (.arr p.1)) p.2
      | e :: t =>
        bindE (go env data fuel (.expr e locals .undefV) st) (fun v st1 =>
          go env data fuel (.callArgs cv t (v :: acc) locals) st1)
    -- Entity.prototype._get: default the index to this.index (the stored,
    -- shared array), set locals.__this__, invoke the value evaluator
    | .entGet ent locals index =>
      let idx := match index with
                 | .undefV => Value.arr ent.index
                 | _ => index
      let st1 := st.setProp locals "__this__" (.entity ent)
      match ent.value with
      | some e => go env data fuel (.expr e locals idx) st1
      | none => (.error .typeError, st1)
    -- Entity.prototype._yield: locals.__resolve__ = false, then _get
    | .entYield ent locals index =>
      go env data fuel (.entGet ent locals index)
        (st.setProp locals "__resolve__" (.bool false))
    -- Entity.prototype._resolve: locals.__resolve__ = true, then _get
    | .entResolve ent locals index =>
      go env data fuel (.entGet ent locals index)
        (st.setProp locals "__resolve__" (.bool true))
    -- Entity.prototype.get: fresh {} locals, then _resolve
    | .pubGet ent index =>
      let p := st.allocObj []
      go env data fuel (.entResolve ent (.objRef p.1) index) p.2
    -- Entity.prototype.getAttribute: this.attributes[name].get({__this__:
    -- this}, env, data); a missing attribute throws (AttributeNotFound)
    | .getAttr ent name =>
      match name with
      | .str s =>
        match assoc ent.attributes s with
        | some attr =>
          let p := st.allocObj [("__this__", .entity ent)]
          go env data fuel (.attrGet attr (.objRef p.1) .undefV) p.2
        | none => (.error .typeError, st)
      | _ => (.error .typeError, st)
    -- Attribute.prototype.get: default the index to locals.__this__.index,
    -- call the value evaluator with index.shift(), then loop
    | .attrGet attr locals index =>
      bindE (match index with
             | .undefV =>
               match st.getProp locals "__this__" with
               | .entity ent => (.ok (.arr ent.index), st)
               | .undefV => (.error .typeError, st)
               | .nullV => (.error .typeError, st)
               | _ => (.ok .undefV, st)
             | _ => (.ok index, st)) (fun idx st0 =>
        bindE (shiftIdx st0 idx) (fun k st1 =>
          match attr.value with
          | some ve =>
            bindE (go env data fuel (.expr ve locals k) st1) (fun ret st2 =>
              go env data fuel (.attrLoop ret locals idx) st2)
          | none => (.error .typeError, st1)))
    -- the while-loop of Attribute.prototype.get: each pass shifts the cursor
    -- (argument evaluation precedes the callability check) and re-invokes
    | .attrLoop ret locals index =>
      match ret with
      | .str s => (.ok (.str s), st)
      | _ =>
        bindE (shiftIdx st index) (fun k st1 =>
          match ret with
          | .closure e =>
            bindE (go env data fuel (.expr e locals k) st1) (fun r st2 =>
              go env data fuel (.attrLoop r locals index) st2)
          | .fn _ _ =>
            bindE (go env data fuel (.call1 ret locals) st1) (fun r st2 =>
              go env data fuel (.attrLoop r locals index) st2)
          | _ => (.error .typeError, st1))
    -- the for-in loop of Entity.prototype.getAttributes
    | .attrsList ent rem accR =>
      match rem with
      | [] => (.ok (.objRef accR), st)
      | (_, attr) :: t =>
        let p := st.allocObj [("__this__", .entity ent)]
        bindE (go env data fuel (.attrGet attr (.objRef p.1) .undefV) p.2)
          (fun v st2 =>
            go env data fuel (.attrsList ent t accR)
              (st2.setProp (.objRef accR) attr.id v))
    -- Entity.prototype.getAttributes
    | .getAttrs ent =>
      let p := st.allocObj []
      go env data fuel (.attrsList ent ent.attributes p.1) p.2
    -- Entity.prototype.getEntity
    | .getEntityR ent =>
      bindE (go env data fuel (.pubGet ent .undefV) st) (fun v st1 =>
        bindE (go env data fuel (.getAttrs ent) st1) (fun a st2 =>
          let p := st2.allocObj [("value", v), ("attributes", a)]
          (.ok (.objRef p.1), p.2)))

/-- Raw syntax nodes as produced by the external parser, one constructor per
kind tag the dispatch table `EXPRESSION_TYPES` recognizes, plus `unknown` for
any node whose tag is outside that closed set.  `arrayN` carries the
`default` flags of its element nodes as a parallel list (`dflts.getD i
false` is `content[i].default`); a `hashN` element contributes its `id` and
`default` through `elemKey`/`elemDflt` (a non-`keyValuePair` element has no
`id`, which JavaScript coerces to the property key "undefined").  For
`propertyN`/`attributeN` with `computed = false` only the literal `name` is
consulted and the trailing node is not compiled. -/
inductive Node where
  | identifier (name : String)
  | thisN
  | variableN (name : String)
  | globalN (name : String)
  | numberN (content : Int)
  | stringN (content : String)
  | arrayN (dflts : List Bool) (content : List Node)
  | hashN (content : List Node)
  | keyValuePair (id : String) (dflt : Bool) (value : Node)
  | complexStrN (content : List Node)
  | unaryN (operator : String) (operand : Node)
  | binaryN (operator : String) (left right : Node)
  | logicalN (operator : String) (left right : Node)
  | conditionalN (test consequent alternate : Node)
  | callN (callee : Node) (arguments : List Node)
  | propertyN (expression : Node) (computed : Bool) (name : String) (propNode : Node)
  | attributeN (expression : Node) (computed : Bool) (name : String) (attrNode : Node)
  | unknown (ty : String)

/-- The kind tag `node.type` of a raw node. -/
def Node.kind : Node → String
  | .identifier _ => "identifier"
  | .thisN => "this"
  | .variableN _ => "variable"
  | .globalN _ => "global"
  | .numberN _ => "number"
  | .stringN _ => "string"
  | .arrayN _ _ => "array"
  | .hashN _ => "hash"
  | .keyValuePair _ _ _ => "keyValuePair"
  | .complexStrN _ => "complexString"
  | .unaryN _ _ => "unaryExpression"
  | .binaryN _ _ _ => "binaryExpression"
  | .logicalN _ _ _ => "logicalExpression"
  | .conditionalN _ _ _ => "conditionalExpression"
  | .callN _ _ => "callExpression"
  | .propertyN _ _ _ _ => "propertyExpression"
  | .attributeN _ _ _ _ => "attributeExpression"
  | .unknown ty => ty

/-- The keys of the `EXPRESSION_TYPES` dispatch table. -/
def recognizedKinds : List String :=
  ["identifier", "this", "variable", "global", "number", "string", "array",
   "hash", "complexString", "keyValuePair", "unaryExpression",
   "binaryExpression", "logicalExpression", "conditionalExpression",
   "callExpression", "propertyExpression", "attributeExpression"]

/-- `elem.id` of a hash-literal element, as the property key it becomes. -/
def elemKey : Node → String
  | .keyValuePair id _ _ => id
  | _ => "undefined"

/-- `elem.default` of a hash-literal element. -/
def elemDflt : Node → Bool
  | .keyValuePair _ d _ => d
  | _ => false

/-- The `defaultKey` an `ArrayLiteral` of `n` branches precomputes:
`node.content.forEach(function(elem, i) { … if (elem.default) defaultKey =
i; })` starting from 0, so the last flagged position wins and position 0 is
the default when nothing is flagged. -/
def arrayDefaultKey (dflts : List Bool) (n : Nat) : Nat :=
  (List.range n).foldl (fun d i => if dflts.getD i false then i else d) 0

/-- The `defaultKey` a `HashLiteral` precomputes: the first element's id,
overridden by any element flagged `default` (`if (i == 0 || elem.default)
defaultKey = elem.id`). -/
def hashDefaultKey (xs : List (String × Bool)) : Option String :=
  (xs.foldl (fun p e => ((if p.2 == 0 || e.2 then some e.1 else p.1), p.2 + 1))
    ((none : Option String), (0 : Nat))).1

mutual
/-- The `Expression(node)` compile step: dispatch on the node kind, compile
children once, precompute array/hash default branches, allocate a fresh
reentrancy tag for each `complexString` (the counter threads through).  A
kind outside the dispatch table fails with MalformedNode. -/
def compileN : Node → Nat → Except CErr (Expr × Nat)
  | .identifier n, k => .ok (.identifier n, k)
  | .thisN, k => .ok (.thisE, k)
  | .variableN n, k => .ok (.variableE n, k)
  | .globalN n, k => .ok (.globalE n, k)
  | .numberN c, k => .ok (.number c, k)
  | .stringN c, k => .ok (.stringE c, k)
  | .arrayN dflts content, k =>
    match compileListN content k with
    | .error e => .error e
    | .ok (ces, k1) => .ok (.arrayLit ces (arrayDefaultKey dflts ces.length), k1)
  | .hashN content, k =>
    match compileListN content k with
    | .error e => .error e
    | .ok (ces, k1) =>
      .ok (.hashLit (((content.map elemKey).zip ces).foldl
                      (fun acc p => setK acc p.1 p.2) [])
            (hashDefaultKey (content.map (fun c => (elemKey c, elemDflt c)))), k1)
  | .keyValuePair _ _ v, k => compileN v k
  | .complexStrN content, k =>
    match compileListN content (k + 1) with
    | .error e => .error e
    | .ok (ces, k1) => .ok (.complexString k ces, k1)
  | .unaryN op o, k =>
    match compileN o k with
    | .error e => .error e
    | .ok (oe, k1) => .ok (.unary op oe, k1)
  | .binaryN op l r, k =>
    match compileN l k with
    | .error e => .error e
    | .ok (le, k1) =>
      match compileN r k1 with
      | .error e => .error e
      | .ok (re, k2) => .ok (.binary op le re, k2)
  | .logicalN op l r, k =>
    match compileN l k with
    | .error e => .error e
    | .ok (le, k1) =>
      if op = "" then .ok (le, k1)
      else
        match compileN r k1 with
        | .error e => .error e
        | .ok (re, k2) => .ok (.logical op le re, k2)
  | .conditionalN t c a, k =>
    match compileN t k with
    | .error e => .error e
    | .ok (te, k1) =>
      match compileN c k1 with
      | .error e => .error e
      | .ok (ce, k2) =>
        match compileN a k2 with
        | .error e => .error e
        | .ok (ae, k3) => .ok (.conditional te ce ae, k3)
  | .callN callee args, k =>
    match compileN callee k with
    | .error e => .error e
    | .ok (ce, k1) =>
      match compileListN args k1 with
      | .error e => .error e
      | .ok (aes, k2) => .ok (.call ce aes, k2)
  | .propertyN ex computed nm pn, k =>
    match compileN ex k with
    | .error e => .error e
    | .ok (ee, k1) =>
      if computed then
        match compileN pn k1 with
        | .error e => .error e
        | .ok (pe, k2) => .ok (.property ee true nm pe, k2)
      else .ok (.property ee false nm (.stringE ""), k1)
  | .attributeN ex computed nm an, k =>
    match compileN ex k with
    | .error e => .error e
    | .ok (ee, k1) =>
      if computed then
        match compileN an k1 with
        | .error e => .error e
        | .ok (ae, k2) => .ok (.attributeE ee true nm ae, k2)
      else .ok (.attributeE ee false nm (.stringE ""), k1)
  | .unknown _, _ => .error .malformedNode

/-- Compiling a list of child nodes left to right. -/
def compileListN : List Node → Nat → Except CErr (List Expr × Nat)
  | [], k => .ok ([], k)
  | n :: t, k =>
    match compileN n k with
    | .error e => .error e
    | .ok (e1, k1) =>
      match compileListN t k1 with
      | .error e => .error e
      | .ok (es, k2) => .ok (e1 :: es, k2)
end

mutual
/-- Whether every node the compiler dispatches on — the node itself and each
child it actually compiles — has a recognized kind. -/
def wkN : Node → Bool
  | .identifier _ => true
  | .thisN => true
  | .variableN _ => true
  | .globalN _ => true
  | .numberN _ => true
  | .stringN _ => true
  | .arrayN _ content => wkL content
  | .hashN content => wkL content
  | .keyValuePair _ _ v => wkN v
  | .complexStrN content => wkL content
  | .unaryN _ o => wkN o
  | .binaryN _ l r => wkN l && wkN r
  | .logicalN op l r => wkN l && (op == "" || wkN r)
  | .conditionalN t c a => wkN t && wkN c && wkN a
  | .callN callee args => wkN callee && wkL args
  | .propertyN ex computed _ pn => wkN ex && (!computed || wkN pn)
  | .attributeN ex computed _ an => wkN ex && (!computed || wkN an)
  | .unknown _ => false

def wkL : List Node → Bool
  | [] => true
  | n :: t => wkN n && wkL t
end

/-- A raw attribute definition node (`Attribute(node)` input). -/
structure AttrDef where
  id : String
  localF : Bool
  value : Option Node

/-- A raw entity definition node (`Entity(node)` input). -/
structure EntityDef where
  id : String
  value : Option Node
  index : List Node
  attrs : List AttrDef
  localF : Bool

/-- A raw macro definition node (`Macro(node)` input): `args` are the
declared parameter names `node.args[i].name`. -/
structure FnDef where
  id : String
  args : List String
  expression : Node

/-- A top-level definition of the input sequence: an entity definition, a
macro definition, or a definition of any other (skipped) type.  The `for`
loop of `compile` stops at the first falsy element, modelled as `none` in
`Option TopEntry`. -/
inductive TopEntry where
  | entity (e : EntityDef)
  | mac (m : FnDef)
  | other (ty : String)

/-- `new Expression(node)` on a possibly-falsy node: `Expression` returns
`null` for a falsy argument instead of compiling. -/
def compileOpt : Option Node → Nat → Except CErr (Option Expr × Nat)
  | none, k => .ok (none, k)
  | some n, k =>
    match compileN n k with
    | .error e => .error e
    | .ok (e1, k1) => .ok (some e1, k1)

/-- `new Attribute(node)`. -/
def compileAttr (a : AttrDef) (k : Nat) : Except CErr (Attr0 × Nat) :=
  match compileOpt a.value k with
  | .error e => .error e
  | .ok (v, k1) => .ok (⟨a.id, a.localF, v⟩, k1)

/-- The attribute definitions of an entity, in order. -/
def compileAttrList : List AttrDef → Nat → Except CErr (List Attr0 × Nat)
  | [], k => .ok ([], k)
  | a :: t, k =>
    match compileAttr a k with
    | .error e => .error e
    | .ok (a1, k1) =>
      match compileAttrList t k1 with
      | .error e => .error e
      | .ok (as1, k2) => .ok (a1 :: as1, k2)

/-- `new Entity(node)`: compile the value, compile the index evaluators into
a freshly allocated (and thereafter mutable) `this.index` array, compile the
attributes into the id-keyed mapping. -/
def compileEntity (e : EntityDef) (k : Nat) (st : St) :
    Except CErr (EntityObj × Nat × St) :=
  match compileOpt e.value k with
  | .error er => .error er
  | .ok (v, k1) =>
    match compileListN e.index k1 with
    | .error er => .error er
    | .ok (ixs, k2) =>
      match compileAttrList e.attrs k2 with
      | .error er => .error er
      | .ok (ats, k3) =>
        let p := st.allocArr (ixs.map Value.closure)
        .ok (⟨e.id, v, p.1, ats.foldl (fun acc a => setK acc a.id a) [], e.localF⟩,
             k3, p.2)

/-- `new Macro(node)`: the macro value closing over parameter names and the
compiled body. -/
def compileFn (m : FnDef) (k : Nat) : Except CErr (Value × Nat) :=
  match compileN m.expression k with
  | .error e => .error e
  | .ok (body, k1) => .ok (.fn m.args body, k1)

/-- The public `compile(ast, obj)` entry point: `for (var i = 0, elem; elem =
ast[i]; i++)` walks the definitions until the first falsy element (or the end
of the array, where `ast[i]` is `undefined`), building entities and macros
into the result mapping with overwrite-on-duplicate, and skipping any other
definition type. -/
def compileResource : List (Option TopEntry) → List (String × Value) → Nat → St →
    Except CErr (List (String × Value) × Nat × St)
  | [], obj, k, st => .ok (obj, k, st)
  | none :: _, obj, k, st => .ok (obj, k, st)
  | some (.entity e) :: t, obj, k, st =>
    match compileEntity e k st with
    | .error er => .error er
    | .ok (ent, k1, st1) => compileResource t (setK obj e.id (.entity ent)) k1 st1
  | some (.mac m) :: t, obj, k, st =>
    match compileFn m k with
    | .error er => .error er
    | .ok (f, k1) => compileResource t (setK obj m.id f) k1 st
  | some (.other _) :: t, obj, k, st => compileResource t obj k st

theorem assoc_setK_self {κ α : Type} [DecidableEq κ] (l : List (κ × α)) (k : κ) (v : α) :
    assoc (setK l k v) k = some v := by
  induction l with
  | nil => simp [setK, assoc]
  | cons h t ih =>
    obtain ⟨k', v'⟩ := h
    by_cases hk : k' = k <;> simp [setK, assoc, hk, ih]

theorem assoc_setK_ne {κ α : Type} [DecidableEq κ] (l : List (κ × α)) (k k2 : κ) (v : α)
    (h : k2 ≠ k) : assoc (setK l k v) k2 = assoc l k2 := by
  have h' : k ≠ k2 := fun he => h he.symm
  induction l with
  | nil => simp [setK, assoc, h']
  | cons p t ih =>
    obtain ⟨k', v'⟩ := p
    by_cases hk : k' = k
    · subst hk
      simp [setK, assoc, h']
    · simp [setK, assoc, hk, ih]

@[simp] theorem setProp_dirty (st : St) (v : Value) (k : String) (x : Value) :
    (St.setProp st v k x).dirty = st.dirty := by
  cases v <;> rfl

@[simp] theorem setArr_dirty (st : St) (r : Nat) (l : List Value) :
    (St.setArr st r l).dirty = st.dirty := rfl

@[simp] theorem allocArr_dirty (st : St) (l : List Value) :
    (St.allocArr st l).2.dirty = st.dirty := rfl

@[simp] theorem allocObj_dirty (st : St) (props : List (String × Value)) :
    (St.allocObj st props).2.dirty = st.dirty := rfl

/-- Success-preservation predicate for the dirty-marker set: whenever the
evaluation step `r`, started in state `st`, returns successfully, the set of
in-progress interpolation markers is exactly what it was. -/
def PD (st : St) (r : (Except Err Value) × St) : Prop :=
  ∀ v st', r = (.ok v, st') → st'.dirty = st.dirty

theorem PD_pure (st : St) (v : Value) : PD st (.ok v, st) := by
  intro w st' h
  injection h with _ h2
  rw [h2]

theorem PD_pure_of {st st1 : St} (h : st1.dirty = st.dirty) (v : Value) :
    PD st (.ok v, st1) := by
  intro w st' he
  injection he with _ h2
  subst h2
  exact h

theorem PD_err (st st1 : St) (e : Err) : PD st (.error e, st1) := by
  intro w st' h
  injection h with h1 _
  exact absurd h1 (by simp)

theorem PD_of_dirty_eq {st st1 : St} {r : (Except Err Value) × St}
    (h : st1.dirty = st.dirty) (hr : PD st1 r) : PD st r := by
  intro v st' he
  rw [hr v st' he, h]

theorem PD_bindE {st : St} {x : (Except Err Value) × St}
    {f : Value → St → (Except Err Value) × St}
    (hx : PD st x) (hf : ∀ v st1, x = (.ok v, st1) → PD st1 (f v st1)) :
    PD st (bindE x f) := by
  intro v st' h
  obtain ⟨xr, xst⟩ := x
  cases xr with
  | ok w =>
    have hd := hx w xst rfl
    rw [hf w xst rfl v st' (by simpa [bindE] using h), hd]
  | error e =>
    simp [bindE] at h

theorem PD_shiftIdx (st : St) (v : Value) : PD st (shiftIdx st v) := by
  cases v with
  | arr r =>
    simp only [shiftIdx]
    match st.getArr r with
    | some [] => exact PD_pure st .undefV
    | some (h :: t) => exact PD_pure_of (setArr_dirty st r t) h
    | none => exact PD_pure st .undefV
  | undefV => exact PD_err st st .typeError
  | nullV => exact PD_err st st .typeError
  | bool b => exact PD_err st st .typeError
  | num n => exact PD_err st st .typeError
  | nan => exact PD_err st st .typeError
  | str s => exact PD_err st st .typeError
  | closure e => exact PD_err st st .typeError
  | fn p b => exact PD_err st st .typeError
  | entity e => exact PD_err st st .typeError
  | objRef r => exact PD_err st st .typeError

theorem filter_ne_cons_self (d : List Nat) (t : Nat) (h : t ∉ d) :
    (t :: d).filter (fun x => x ≠ t) = d := by
  rw [List.filter_cons, if_neg (by simp)]
  exact List.filter_eq_self.mpr (fun a ha => by
    simp only [ne_eq, decide_eq_true_eq]
    intro he
    exact h (he ▸ ha))

/-- On every successful evaluation step the set of in-progress interpolation
markers is restored: `complexString` is the only writer, and it pairs its
set with a clear on the success path. -/
theorem go_ok_dirty (env : Env) (data : List (String × Value)) :
    ∀ fuel req st, PD st (go env data fuel req st) := by
  intro fuel
  induction fuel with
  | zero =>
    intro req st v st' h
    simp [go] at h
  | succ fuel IH =>
    intro req st
    cases req with
    | expr e locals index =>
      cases e with
      | identifier name =>
        simp only [go]
        exact PD_pure _ _
      | thisE =>
        simp only [go]
        exact PD_pure _ _
      | variableE name =>
        simp only [go]
        split <;> exact PD_pure _ _
      | globalE name =>
        simp only [go]
        exact PD_pure _ _
      | number n =>
        simp only [go]
        exact PD_pure _ _
      | stringE s =>
        simp only [go]
        exact PD_pure _ _
      | arrayLit content dk =>
        simp only [go]
        apply PD_bindE (PD_shiftIdx st index)
        intro kv st1 h1
        apply PD_bindE
        · split
          · exact IH _ _
          · exact PD_pure _ _
        · intro k st2 h2
          split
          · split
            · exact IH _ _
            · exact PD_err _ _ _
          · split
            · exact PD_pure _ _
            · exact PD_pure _ _
      | hashLit content dk =>
        simp only [go]
        by_cases hti : truthy index
        · simp only [hti, if_true]
          apply PD_bindE (PD_shiftIdx st index)
          intro kv st1 h1
          apply PD_bindE
          · split
            · exact IH _ _
            · exact PD_pure _ _
          · intro k st2 h2
            split
            · split
              · exact IH _ _
              · exact PD_err _ _ _
            · split
              · exact PD_pure _ _
              · exact PD_pure _ _
        · simp only [hti, if_false]
          apply PD_of_dirty_eq (allocArr_dirty st [])
          apply PD_bindE (PD_shiftIdx _ _)
          intro kv st1 h1
          apply PD_bindE
          · split
            · exact IH _ _
            · exact PD_pure _ _
          · intro k st2 h2
            split
            · split
              · exact IH _ _
              · exact PD_err _ _ _
            · split
              · exact PD_pure _ _
              · exact PD_pure _ _
      | complexString tag content =>
        simp only [go]
        split
        · exact PD_err _ _ _
        next hmem =>
          split
          next v st1 hok =>
            intro w st' he
            injection he with he1 he2
            subst he2
            have hd : st1.dirty = tag :: st.dirty := IH _ _ v st1 hok
            show st1.dirty.filter (fun x => x ≠ tag) = st.dirty
            rw [hd]
            exact filter_ne_cons_self st.dirty tag hmem
          next er st1 herr => exact PD_err _ _ _
      | unary op operand =>
        simp only [go]
        apply PD_bindE (IH _ _)
        intro v st1 h1
        split
        · exact PD_pure _ _
        · exact PD_err _ _ _
      | binary op l r =>
        simp only [go]
        apply PD_bindE (IH _ _)
        intro lv st1 h1
        apply PD_bindE (IH _ _)
        intro rv st2 h2
        split
        · exact PD_pure _ _
        · exact PD_err _ _ _
      | logical op l r =>
        simp only [go]
        apply PD_bindE (IH _ _)
        intro lv st1 h1
        apply PD_bindE (IH _ _)
        intro rv st2 h2
        split
        · exact PD_pure _ _
        · exact PD_err _ _ _
      | conditional t c a =>
        simp only [go]
        apply PD_bindE (IH _ _)
        intro tv st1 h1
        split
        · exact IH _ _
        · exact IH _ _
      | call callee args =>
        simp only [go]
        apply PD_bindE (IH _ _)
        intro cv st1 h1
        exact IH _ _
      | property ex computed pname pev =>
        simp only [go]
        apply PD_bindE (IH _ _)
        intro ret st1 h1
        cases ret
        case entity ent => exact PD_of_dirty_eq (allocArr_dirty st1 _) (IH _ _)
        case closure ce => exact PD_of_dirty_eq (allocArr_dirty st1 _) (IH _ _)
        case fn ps b => exact PD_of_dirty_eq (allocArr_dirty st1 _) (IH _ _)
        all_goals exact PD_err _ _ _
      | attributeE ex computed aname aev =>
        simp only [go]
        apply PD_bindE (IH _ _)
        intro ev st1 h1
        cases ev
        case entity ent => exact IH _ _
        all_goals exact PD_err _ _ _
    | call1 f a =>
      simp only [go]
      cases f
      case closure e => exact IH _ _
      case fn ps body =>
        cases ps with
        | nil => exact PD_of_dirty_eq (allocObj_dirty st _) (IH _ _)
        | cons p t =>
          cases a
          case undefV => exact PD_err _ _ _
          case nullV => exact PD_err _ _ _
          all_goals exact PD_of_dirty_eq (allocObj_dirty st _) (IH _ _)
      all_goals exact PD_err _ _ _
    | drive part locals =>
      simp only [go]
      cases part
      case str s => exact PD_pure _ _
      case entity ent =>
        apply PD_bindE (IH _ _)
        intro v st1 h1
        exact IH _ _
      case closure e =>
        apply PD_bindE (IH _ _)
        intro v st1 h1
        exact IH _ _
      case fn ps b =>
        apply PD_bindE (IH _ _)
        intro v st1 h1
        exact IH _ _
      all_goals exact PD_err _ _ _
    | parts rem acc locals =>
      simp only [go]
      cases rem with
      | nil => exact PD_pure _ _
      | cons e t =>
        apply PD_bindE (IH _ _)
        intro p st1 h1
        apply PD_bindE (IH _ _)
        intro pv st2 h2
        cases pv
        case str s => exact IH _ _
        all_goals exact PD_err _ _ _
    | callArgs cv rem acc locals =>
      simp only [go]
      cases rem with
      | nil => exact PD_of_dirty_eq (allocArr_dirty st _) (IH _ _)
      | cons e t =>
        apply PD_bindE (IH _ _)
        intro v st1 h1
        exact IH _ _
    | entGet ent locals index =>
      simp only [go]
      split
      · exact PD_of_dirty_eq (setProp_dirty st locals "__this__" (.entity ent)) (IH _ _)
      · exact PD_err _ _ _
    | entYield ent locals index =>
      simp only [go]
      exact PD_of_dirty_eq (setProp_dirty st locals "__resolve__" (.bool false)) (IH _ _)
    | entResolve ent locals index =>
      simp only [go]
      exact PD_of_dirty_eq (setProp_dirty st locals "__resolve__" (.bool true)) (IH _ _)
    | pubGet ent index =>
      simp only [go]
      exact PD_of_dirty_eq (allocObj_dirty st []) (IH _ _)
    | getAttr ent name =>
      simp only [go]
      cases name
      case str s =>
        cases ha : assoc ent.attributes s with
        | some attr =>
          simp only [ha]
          exact PD_of_dirty_eq (allocObj_dirty st _) (IH _ _)
        | none =>
          simp only [ha]
          exact PD_err _ _ _
      all_goals exact PD_err _ _ _
    | attrGet attr locals index =>
      simp only [go]
      apply PD_bindE
      · split
        · split
          · exact PD_pure _ _
          · exact PD_err _ _ _
          · exact PD_err _ _ _
          · exact PD_pure _ _
        · exact PD_pure _ _
      · intro idx st0 h0
        apply PD_bindE (PD_shiftIdx st0 idx)
        intro k st1 h1
        split
        · apply PD_bindE (IH _ _)
          intro ret st2 h2
          exact IH _ _
        · exact PD_err _ _ _
    | attrLoop ret locals index =>
      simp only [go]
      cases ret
      case str s => exact PD_pure _ _
      case closure e =>
        apply PD_bindE (PD_shiftIdx st index)
        intro k st1 h1
        apply PD_bindE (IH _ _)
        intro r st2 h2
        exact IH _ _
      case fn ps b =>
        apply PD_bindE (PD_shiftIdx st index)
        intro k st1 h1
        apply PD_bindE (IH _ _)
        intro r st2 h2
        exact IH _ _
      all_goals
        apply PD_bindE (PD_shiftIdx st index) ; intro k st1 h1 ; exact PD_err _ _ _
    | attrsList ent rem accR =>
      simp only [go]
      cases rem with
      | nil => exact PD_pure _ _
      | cons p t =>
        apply PD_bindE (PD_of_dirty_eq (allocObj_dirty st _) (IH _ _))
        intro v st2 h2
        exact PD_of_dirty_eq (setProp_dirty st2 _ _ _) (IH _ _)
    | getAttrs ent =>
      simp only [go]
      exact PD_of_dirty_eq (allocObj_dirty st []) (IH _ _)
    | getEntityR ent =>
      simp only [go]
      apply PD_bindE (IH _ _)
      intro v st1 h1
      apply PD_bindE (IH _ _)
      intro a st2 h2
      exact PD_pure_of (allocObj_dirty st2 _) _

theorem selectArr_default (content : List Expr) (dk : Nat) (k : Value)
    (h : truthy k = false ∨ arrGetIdx content k = none) :
    selectArr content dk k = content.get? dk := by
  rcases h with h | h
  · simp [selectArr, h]
  · by_cases ht : truthy k
    · simp [selectArr, ht, h]
    · simp [selectArr, ht]

theorem selectHash_default (content : List (String × Expr)) (dk : Option String)
    (k : Value) (h : truthy k = false ∨ hashGet content k = none) :
    selectHash content dk k = dk.bind (assoc content) := by
  rcases h with h | h
  · simp [selectHash, h]
  · by_cases ht : truthy k
    · simp [selectHash, ht, h]
    · simp [selectHash, ht]

/-- One evaluation step of a compiled array literal, given the outcome of the
cursor pop (`h1`) and of evaluating the popped key when it is itself an
evaluator (`h2`): branch selection, then either recursive resolution of the
selected branch with the remaining cursor (resolve mode) or the branch
returned as an unevaluated thunk (yield mode). -/
theorem go_arrayLit_step (env : Env) (data : List (String × Value)) (fuel : Nat)
    (content : List Expr) (dk : Nat) (locals index : Value) (st st1 st2 : St)
    (kv k : Value)
    (h1 : shiftIdx st index = (.ok kv, st1))
    (h2 : (if isFunc kv then go env data fuel (.call1 kv locals) st1
           else (.ok kv, st1)) = (.ok k, st2)) :
    go env data (fuel + 1) (.expr (.arrayLit content dk) locals index) st =
      if truthy (st2.getProp locals "__resolve__") then
        match selectArr content dk k with
        | some m => go env data fuel (.expr m locals index) st2
        | none => (.error .typeError, st2)
      else
        match selectArr content dk k with
        | some m => (.ok (.closure m), st2)
        | none => (.ok .undefV, st2) := by
  simp only [go]
  rw [h1]
  simp only [bindE]
  rw [h2]

/-- One evaluation step of a compiled hash literal under a truthy index
cursor, in the same shape as `go_arrayLit_step`. -/
theorem go_hashLit_step (env : Env) (data : List (String × Value)) (fuel : Nat)
    (content : List (String × Expr)) (dk : Option String) (locals index : Value)
    (st st1 st2 : St) (kv k : Value)
    (h0 : truthy index = true)
    (h1 : shiftIdx st index = (.ok kv, st1))
    (h2 : (if isFunc kv then go env data fuel (.call1 kv locals) st1
           else (.ok kv, st1)) = (.ok k, st2)) :
    go env data (fuel + 1) (.expr (.hashLit content dk) locals index) st =
      if truthy (st2.getProp locals "__resolve__") then
        match selectHash content dk k with
        | some m => go env data fuel (.expr m locals index) st2
        | none => (.error .typeError, st2)
      else
        match selectHash content dk k with
        | some m => (.ok (.closure m), st2)
        | none => (.ok .undefV, st2) := by
  simp only [go, h0, if_true]
  rw [h1]
  simp only [bindE]
  rw [h2]

theorem foldl_dk_lt (dflts : List Bool) (n : Nat) :
    ∀ (l : List Nat) (d0 : Nat), d0 < n → (∀ i ∈ l, i < n) →
    (l.foldl (fun d i => if dflts.getD i false then i else d) d0) < n := by
  intro l
  induction l with
  | nil =>
    intro d0 h _
    exact h
  | cons a t ih =>
    intro d0 h hm
    simp only [List.foldl_cons]
    apply ih
    · split
      · exact hm a (by simp)
      · exact h
    · intro i hi
      exact hm i (by simp [hi])

/-- The precomputed default of a nonempty array literal is a real branch. -/
theorem arrayDefaultKey_lt (dflts : List Bool) (n : Nat) (h : 0 < n) :
    arrayDefaultKey dflts n < n :=
  foldl_dk_lt dflts n (List.range n) 0 h (fun _ hi => List.mem_range.mp hi)

theorem foldl_dk_const (dflts : List Bool) :
    ∀ (l : List Nat) (d0 : Nat), (∀ i ∈ l, dflts.getD i false = false) →
    (l.foldl (fun d i => if dflts.getD i false then i else d) d0) = d0 := by
  intro l
  induction l with
  | nil =>
    intro d0 _
    rfl
  | cons a t ih =>
    intro d0 hm
    simp only [List.foldl_cons, hm a (by simp), if_false]
    exact ih d0 (fun i hi => hm i (by simp [hi]))

/-- With no branch marked `default`, the array literal's default is the
first-declared branch (position 0). -/
theorem arrayDefaultKey_unmarked (dflts : List Bool) (n : Nat)
    (h : ∀ i, i < n → dflts.getD i false = false) :
    arrayDefaultKey dflts n = 0 :=
  foldl_dk_const dflts (List.range n) 0 (fun i hi => h i (List.mem_range.mp hi))

/-- With exactly one branch marked `default`, that branch is the default. -/
theorem arrayDefaultKey_marked (dflts : List Bool) :
    ∀ (n j : Nat), j < n → dflts.getD j false = true →
    (∀ i, i < n → i ≠ j → dflts.getD i false = false) →
    arrayDefaultKey dflts n = j := by
  intro n
  induction n with
  | zero =>
    intro j hj _ _
    exact absurd hj (by omega)
  | succ n ih =>
    intro j hj hmark hothers
    unfold arrayDefaultKey
    rw [List.range_succ, List.foldl_append]
    simp only [List.foldl_cons, List.foldl_nil]
    by_cases hn : n = j
    · subst hn
      split
      · rfl
      · simp_all
    · have hfn := hothers n (by omega) hn
      split
      · simp_all
      · have := ih j (by omega) hmark (fun i hi hij => hothers i (by omega) hij)
        unfold arrayDefaultKey at this
        exact this

theorem hash_foldl_inv (P : String → Prop) :
    ∀ (t : List (String × Bool)) (a : String) (c : Nat), P a → (∀ e ∈ t, P e.1) →
    ∃ b, (t.foldl (fun p e => ((if p.2 == 0 || e.2 then some e.1 else p.1), p.2 + 1))
            ((some a : Option String), c)).1 = some b ∧ P b := by
  intro t
  induction t with
  | nil =>
    intro a c ha _
    exact ⟨a, rfl, ha⟩
  | cons e t ih =>
    intro a c ha hm
    simp only [List.foldl_cons]
    by_cases hc : (c == 0 || e.2) = true
    · rw [if_pos hc]
      exact ih e.1 (c + 1) (hm e (by simp)) (fun x hx => hm x (by simp [hx]))
    · rw [if_neg hc]
      exact ih a (c + 1) ha (fun x hx => hm x (by simp [hx]))

/-- The hash literal's precomputed default key exists and is one of the
declared element keys whenever there is at least one element. -/
theorem hashDefaultKey_mem (xs : List (String × Bool)) (h : xs ≠ []) :
    ∃ key, hashDefaultKey xs = some key ∧ key ∈ xs.map Prod.fst := by
  match xs with
  | x :: t =>
    obtain ⟨b, hb, hmem⟩ := hash_foldl_inv (fun s => s ∈ (x :: t).map Prod.fst) t x.1 1
      (by simp) (fun e he => List.mem_map_of_mem Prod.fst (List.mem_cons_of_mem x he))
    refine ⟨b, ?_, hmem⟩
    unfold hashDefaultKey
    simp only [List.foldl_cons]
    simpa using hb

/-- With no element marked `default`, the hash literal's default key is the
first-declared element's id. -/
theorem hashDefaultKey_unmarked (id : String) (b : Bool) (t : List (String × Bool))
    (h : ∀ e ∈ t, e.2 = false) :
    hashDefaultKey ((id, b) :: t) = some id := by
  unfold hashDefaultKey
  simp only [List.foldl_cons]
  have inv : ∀ (t2 : List (String × Bool)) (a : String) (c : Nat), c ≠ 0 →
      (∀ e ∈ t2, e.2 = false) →
      (t2.foldl (fun p e => ((if p.2 == 0 || e.2 then some e.1 else p.1), p.2 + 1))
        ((some a : Option String), c)).1 = some a := by
    intro t2
    induction t2 with
    | nil =>
      intro a c _ _
      rfl
    | cons e t2t ih =>
      intro a c hc hm
      simp only [List.foldl_cons]
      rw [if_neg (by simp [hm e (by simp), hc])]
      exact ih a (c + 1) (by omega) (fun x hx => hm x (by simp [hx]))
  rw [if_pos (by simp)]
  exact inv t id 1 (by omega) h

theorem compileListN_length :
    ∀ (l : List Node) (k : Nat) (es : List Expr) (k2 : Nat),
    compileListN l k = .ok (es, k2) → es.length = l.length := by
  intro l
  induction l with
  | nil =>
    intro k es k2 h
    simp only [compileListN] at h
    injection h with h1
    injection h1 with ha hb
    rw [← ha]
    rfl
  | cons n t ih =>
    intro k es k2 h
    cases hc : compileN n k with
    | error er =>
      simp [compileListN, hc] at h
    | ok p =>
      obtain ⟨e1, k1⟩ := p
      cases hl : compileListN t k1 with
      | error er =>
        simp [compileListN, hc, hl] at h
      | ok q =>
        obtain ⟨es1, k3⟩ := q
        simp only [compileListN, hc, hl] at h
        injection h with h1
        injection h1 with ha hb
        rw [← ha]
        simp [ih k1 es1 k3 hl]

theorem assoc_foldl_setK (key : String) :
    ∀ (pairs : List (String × Expr)) (acc : List (String × Expr)),
    (key ∈ pairs.map Prod.fst ∨ (assoc acc key).isSome) →
    (assoc (pairs.foldl (fun acc p => setK acc p.1 p.2) acc) key).isSome := by
  intro pairs
  induction pairs with
  | nil =>
    intro acc h
    rcases h with h | h
    · simp at h
    · exact h
  | cons p t ih =>
    intro acc h
    simp only [List.foldl_cons]
    by_cases hk : key = p.1
    · subst hk
      exact ih _ (Or.inr (by rw [assoc_setK_self]; rfl))
    · apply ih
      rcases h with h | h
      · simp only [List.map_cons, List.mem_cons] at h
        rcases h with h | h
        · exact absurd h hk
        · exact Or.inl h
      · rw [assoc_setK_ne _ _ _ _ hk]
        exact Or.inr h

/-- For a compiled nonempty hash literal, the precomputed default key always
names a declared branch: looking it up in the compiled mapping succeeds. -/
theorem hash_default_exists (content : List Node) (k k1 : Nat)
    (hc : List (String × Expr)) (hdk : Option String)
    (h : compileN (.hashN content) k = .ok (.hashLit hc hdk, k1))
    (hne : content ≠ []) :
    ∃ m, hdk.bind (assoc hc) = some m := by
  cases hl : compileListN content k with
  | error er =>
    simp [compileN, hl] at h
  | ok p =>
    obtain ⟨ces, kk⟩ := p
    simp only [compileN, hl] at h
    injection h with h1
    injection h1 with ha hb
    injection ha with hco hdk2
    obtain ⟨key, hkey, hmem⟩ :=
      hashDefaultKey_mem (content.map (fun c => (elemKey c, elemDflt c)))
        (by simpa using hne)
    rw [← hdk2, hkey]
    have hlen : (content.map elemKey).length ≤ ces.length := by
      rw [compileListN_length content k ces kk hl]
      simp
    have hfst : ((content.map elemKey).zip ces).map Prod.fst = content.map elemKey :=
      List.map_fst_zip _ _ hlen
    have hmem2 : key ∈ ((content.map elemKey).zip ces).map Prod.fst := by
      rw [hfst]
      simpa [Function.comp] using hmem
    have := assoc_foldl_setK key ((content.map elemKey).zip ces) [] (Or.inl hmem2)
    rw [hco] at this
    obtain ⟨m, hm⟩ := Option.isSome_iff_exists.mp this
    exact ⟨m, by simpa using hm⟩

/-- Claim C1: for every compiled array or hash literal evaluated with an index
cursor whose head key (evaluated first when it is itself an evaluator) is
falsy or absent from the declared branches, evaluation selects the
precomputed default branch and never fails with a missing branch.  The
default is a real branch (conjuncts 1 and 5), it is the first-declared branch
when nothing is marked `default` (conjuncts 2 and 4) and the marked branch
when one is (conjunct 3); under a falsy or unmatched key the evaluator
returns exactly the default branch — as a thunk in yield mode, or its
recursive resolution in resolve mode (conjuncts 6 and 7). -/
theorem arrayHash_default_fallback :
    (∀ (dflts : List Bool) (n : Nat), 0 < n → arrayDefaultKey dflts n < n) ∧
    (∀ (dflts : List Bool) (n : Nat), (∀ i, i < n → dflts.getD i false = false) →
      arrayDefaultKey dflts n = 0) ∧
    (∀ (dflts : List Bool) (n j : Nat), j < n → dflts.getD j false = true →
      (∀ i, i < n → i ≠ j → dflts.getD i false = false) →
      arrayDefaultKey dflts n = j) ∧
    (∀ (id : String) (b : Bool) (t : List (String × Bool)),
      (∀ e ∈ t, e.2 = false) → hashDefaultKey ((id, b) :: t) = some id) ∧
    (∀ (content : List Node) (k k1 : Nat) (hc : List (String × Expr))
      (hdk : Option String),
      compileN (.hashN content) k = .ok (.hashLit hc hdk, k1) → content ≠ [] →
      ∃ m, hdk.bind (assoc hc) = some m) ∧
    (∀ (env : Env) (data : List (String × Value)) (fuel : Nat)
      (content : List Expr) (dk : Nat) (locals index : Value) (st st1 st2 : St)
      (kv k : Value) (m : Expr),
      shiftIdx st index = (.ok kv, st1) →
      (if isFunc kv then go env data fuel (.call1 kv locals) st1
       else (.ok kv, st1)) = (.ok k, st2) →
      (truthy k = false ∨ arrGetIdx content k = none) →
      content.get? dk = some m →
      go env data (fuel + 1) (.expr (.arrayLit content dk) locals index) st =
        if truthy (st2.getProp locals "__resolve__") then
          go env data fuel (.expr m locals index) st2
        else (.ok (.closure m), st2)) ∧
    (∀ (env : Env) (data : List (String × Value)) (fuel : Nat)
      (content : List (String × Expr)) (dk : Option String) (locals index : Value)
      (st st1 st2 : St) (kv k : Value) (m : Expr),
      truthy index = true →
      shiftIdx st index = (.ok kv, st1) →
      (if isFunc kv then go env data fuel (.call1 kv locals) st1
       else (.ok kv, st1)) = (.ok k, st2) →
      (truthy k = false ∨ hashGet content k = none) →
      dk.bind (assoc content) = some m →
      go env data (fuel + 1) (.expr (.hashLit content dk) locals index) st =
        if truthy (st2.getProp locals "__resolve__") then
          go env data fuel (.expr m locals index) st2
        else (.ok (.closure m), st2)) := by
  refine ⟨arrayDefaultKey_lt, arrayDefaultKey_unmarked, arrayDefaultKey_marked,
    hashDefaultKey_unmarked, hash_default_exists, ?_, ?_⟩
  · intro env data fuel content dk locals index st st1 st2 kv k m h1 h2 hfb hm
    rw [go_arrayLit_step env data fuel content dk locals index st st1 st2 kv k h1 h2,
      selectArr_default content dk k hfb, hm]
  · intro env data fuel content dk locals index st st1 st2 kv k m h0 h1 h2 hfb hm
    rw [go_hashLit_step env data fuel content dk locals index st st1 st2 kv k h0 h1 h2,
      selectHash_default content dk k hfb, hm]

theorem arrayHash_default_fallback_witness :
    arrayDefaultKey [false, true] 2 = 1 ∧
    go ⟨[], []⟩ [] (5 + 1) (.expr (.arrayLit [.stringE "A"] 0) (.objRef 1) (.arr 0))
        ⟨[(0, [.str "other"])], [(1, [])], [], 2⟩ =
      (.ok (.closure (.stringE "A")), ⟨[(0, [])], [(1, [])], [], 2⟩) ∧
    go ⟨[], []⟩ [] (5 + 1) (.expr (.hashLit [("one", .stringE "A")] (some "one"))
          (.objRef 1) (.arr 0)) ⟨[(0, [.str "other"])], [(1, [])], [], 2⟩ =
      (.ok (.closure (.stringE "A")), ⟨[(0, [])], [(1, [])], [], 2⟩) := by
  refine ⟨?_, ?_, ?_⟩
  · exact arrayHash_default_fallback.2.2.1 [false, true] 2 1 (by omega) rfl
      (fun i hi hij => by
        rcases i with _ | _ | i
        · rfl
        · exact absurd rfl hij
        · omega)
  · have h := arrayHash_default_fallback.2.2.2.2.2.1 ⟨[], []⟩ [] 5 [.stringE "A"] 0
      (.objRef 1) (.arr 0) ⟨[(0, [.str "other"])], [(1, [])], [], 2⟩
      ⟨[(0, [])], [(1, [])], [], 2⟩ ⟨[(0, [])], [(1, [])], [], 2⟩
      (.str "other") (.str "other") (.stringE "A") rfl rfl (Or.inr rfl) rfl
    rw [h]
    rfl
  · have h := arrayHash_default_fallback.2.2.2.2.2.2 ⟨[], []⟩ [] 5
      [("one", .stringE "A")] (some "one") (.objRef 1) (.arr 0)
      ⟨[(0, [.str "other"])], [(1, [])], [], 2⟩ ⟨[(0, [])], [(1, [])], [], 2⟩
      ⟨[(0, [])], [(1, [])], [], 2⟩ (.str "other") (.str "other") (.stringE "A")
      rfl rfl rfl (Or.inr rfl) rfl
    rw [h]
    rfl

/-- Claim C6: array/hash literal evaluation with the resolve-mode flag clear
returns the selected branch as an unevaluated thunk and performs no further
evaluation (the resulting state is exactly the post-selection state); with
the flag set it recursively drives exactly the selected branch with the
remaining cursor — branches other than the selected one are never
evaluated. -/
theorem yield_resolve_split :
    (∀ (env : Env) (data : List (String × Value)) (fuel : Nat)
      (content : List Expr) (dk : Nat) (locals index : Value) (st st1 st2 : St)
      (kv k : Value) (m : Expr),
      shiftIdx st index = (.ok kv, st1) →
      (if isFunc kv then go env data fuel (.call1 kv locals) st1
       else (.ok kv, st1)) = (.ok k, st2) →
      selectArr content dk k = some m →
      (truthy (st2.getProp locals "__resolve__") = false →
        go env data (fuel + 1) (.expr (.arrayLit content dk) locals index) st =
          (.ok (.closure m), st2)) ∧
      (truthy (st2.getProp locals "__resolve__") = true →
        go env data (fuel + 1) (.expr (.arrayLit content dk) locals index) st =
          go env data fuel (.expr m locals index) st2)) ∧
    (∀ (env : Env) (data : List (String × Value)) (fuel : Nat)
      (content : List (String × Expr)) (dk : Option String) (locals index : Value)
      (st st1 st2 : St) (kv k : Value) (m : Expr),
      truthy index = true →
      shiftIdx st index = (.ok kv, st1) →
      (if isFunc kv then go env data fuel (.call1 kv locals) st1
       else (.ok kv, st1)) = (.ok k, st2) →
      selectHash content dk k = some m →
      (truthy (st2.getProp locals "__resolve__") = false →
        go env data (fuel + 1) (.expr (.hashLit content dk) locals index) st =
          (.ok (.closure m), st2)) ∧
      (truthy (st2.getProp locals "__resolve__") = true →
        go env data (fuel + 1) (.expr (.hashLit content dk) locals index) st =
          go env data fuel (.expr m locals index) st2)) := by
  constructor
  · intro env data fuel content dk locals index st st1 st2 kv k m h1 h2 hsel
    constructor
    · intro hres
      rw [go_arrayLit_step env data fuel content dk locals index st st1 st2 kv k h1 h2,
        hsel]
      simp [hres]
    · intro hres
      rw [go_arrayLit_step env data fuel content dk locals index st st1 st2 kv k h1 h2,
        hsel]
      simp [hres]
  · intro env data fuel content dk locals index st st1 st2 kv k m h0 h1 h2 hsel
    constructor
    · intro hres
      rw [go_hashLit_step env data fuel content dk locals index st st1 st2 kv k h0 h1 h2,
        hsel]
      simp [hres]
    · intro hres
      rw [go_hashLit_step env data fuel content dk locals index st st1 st2 kv k h0 h1 h2,
        hsel]
      simp [hres]

theorem yield_resolve_split_witness :
    go ⟨[], []⟩ [] (5 + 1) (.expr (.arrayLit [.stringE "x", .stringE "y"] 0)
        (.objRef 1) (.arr 0)) ⟨[(0, [.num 1])], [(1, [])], [], 2⟩ =
      (.ok (.closure (.stringE "y")), ⟨[(0, [])], [(1, [])], [], 2⟩) ∧
    go ⟨[], []⟩ [] (5 + 1) (.expr (.arrayLit [.stringE "x", .stringE "y"] 0)
        (.objRef 1) (.arr 0))
        ⟨[(0, [.num 1])], [(1, [("__resolve__", .bool true)])], [], 2⟩ =
      (.ok (.str "y"), ⟨[(0, [])], [(1, [("__resolve__", .bool true)])], [], 2⟩) ∧
    go ⟨[], []⟩ [] (5 + 1) (.expr (.hashLit [("one", .stringE "A")] (some "one"))
        (.objRef 1) (.arr 0)) ⟨[(0, [.str "one"])], [(1, [])], [], 2⟩ =
      (.ok (.closure (.stringE "A")), ⟨[(0, [])], [(1, [])], [], 2⟩) := by
  refine ⟨?_, ?_, ?_⟩
  · exact (yield_resolve_split.1 ⟨[], []⟩ [] 5 [.stringE "x", .stringE "y"] 0
      (.objRef 1) (.arr 0) ⟨[(0, [.num 1])], [(1, [])], [], 2⟩
      ⟨[(0, [])], [(1, [])], [], 2⟩ ⟨[(0, [])], [(1, [])], [], 2⟩
      (.num 1) (.num 1) (.stringE "y") rfl rfl rfl).1 rfl
  · have h := (yield_resolve_split.1 ⟨[], []⟩ [] 5 [.stringE "x", .stringE "y"] 0
      (.objRef 1) (.arr 0) ⟨[(0, [.num 1])], [(1, [("__resolve__", .bool true)])], [], 2⟩
      ⟨[(0, [])], [(1, [("__resolve__", .bool true)])], [], 2⟩
      ⟨[(0, [])], [(1, [("__resolve__", .bool true)])], [], 2⟩
      (.num 1) (.num 1) (.stringE "y") rfl rfl rfl).2 rfl
    rw [h]
    rfl
  · exact (yield_resolve_split.2 ⟨[], []⟩ [] 5 [("one", .stringE "A")] (some "one")
      (.objRef 1) (.arr 0) ⟨[(0, [.str "one"])], [(1, [])], [], 2⟩
      ⟨[(0, [])], [(1, [])], [], 2⟩ ⟨[(0, [])], [(1, [])], [], 2⟩
      (.str "one") (.str "one") (.stringE "A") rfl rfl rfl rfl).1 rfl

/-- Claim C2: a compiled interpolated string is guarded by a per-compiled-node
in-progress marker.  Re-entering evaluation of the same compiled node while
its marker is set fails immediately with CyclicReference and touches nothing
(conjunct 1); on successful evaluation the marker set is restored exactly, in
particular the node's own marker is cleared again (conjunct 2); and a
self-referential interpolation — a variable resolving back into the same
compiled string during its own evaluation — fails with CyclicReference
rather than looping or returning partial text (conjunct 3). -/
theorem complexString_reentrancy :
    (∀ (env : Env) (data : List (String × Value)) (fuel tag : Nat)
      (content : List Expr) (locals index : Value) (st : St),
      tag ∈ st.dirty →
      go env data (fuel + 1) (.expr (.complexString tag content) locals index) st =
        (.error .cyclic, st)) ∧
    (∀ (env : Env) (data : List (String × Value)) (fuel tag : Nat)
      (content : List Expr) (locals index : Value) (st : St) (v : Value) (st' : St),
      go env data fuel (.expr (.complexString tag content) locals index) st =
        (.ok v, st') →
      st'.dirty = st.dirty) ∧
    (go ⟨[], []⟩ [("x", .closure (.complexString 0 [.variableE "x"]))] 9
        (.expr (.complexString 0 [.variableE "x"]) (.objRef 1) .undefV)
        ⟨[], [(1, [])], [], 2⟩).1 = .error .cyclic := by
  refine ⟨?_, ?_, ?_⟩
  · intro env data fuel tag content locals index st hmem
    simp only [go]
    rw [if_pos hmem]
  · intro env data fuel tag content locals index st v st' h
    exact go_ok_dirty env data fuel _ st v st' h
  · rfl

theorem complexString_reentrancy_witness :
    go ⟨[], []⟩ [] (3 + 1) (.expr (.complexString 0 [.stringE "hi"]) (.objRef 1) .undefV)
        ⟨[], [(1, [])], [0], 2⟩ = (.error .cyclic, ⟨[], [(1, [])], [0], 2⟩) ∧
    (go ⟨[], []⟩ [] 9 (.expr (.complexString 0 [.stringE "hi"]) (.objRef 1) .undefV)
        ⟨[], [(1, [])], [], 2⟩).2.dirty = (⟨[], [(1, [])], [], 2⟩ : St).dirty := by
  constructor
  · exact complexString_reentrancy.1 ⟨[], []⟩ [] 3 0 [.stringE "hi"] (.objRef 1) .undefV
      ⟨[], [(1, [])], [0], 2⟩ (by simp)
  · exact complexString_reentrancy.2.1 ⟨[], []⟩ [] 9 0 [.stringE "hi"] (.objRef 1) .undefV
      ⟨[], [(1, [])], [], 2⟩ (.str "hi") _ rfl

/-- Claim C3 (code bug): the compiled logical-expression evaluator evaluates
both operands and applies the `&&`/`||` operator, but its body has no
`return` statement, so the evaluator's result is `undefined` — not the
combined value.  At `1 && 2` the operator table yields `2`, yet the evaluator
returns the undefined-sentinel. -/
theorem logicalExpression_drops_result :
    go ⟨[], []⟩ [] 9 (.expr (.logical "&&" (.number 1) (.number 2)) (.objRef 1) .undefV)
        ⟨[], [(1, [])], [], 2⟩ =
      (.ok .undefV, ⟨[], [(1, [])], [], 2⟩) ∧
    applyLogical "&&" (.num 1) (.num 2) = some (.num 2) :=
  ⟨rfl, rfl⟩

/-- Claim C4 (code bug): `Entity._get` aliases `this.index` when no index is
supplied and `arrayLiteral` pops the cursor with `shift()`, so a plain `get`
destructively consumes the entity's stored default index.  For the entity
with value `["a", "b"]` and default index `[1]`: the first `get` returns
"b" and empties the stored index array, and an identical second `get` then
returns "a" — the stored field is shortened and the call is not
read-only. -/
theorem entity_get_consumes_index :
    (go ⟨[], []⟩ [] 20 (.pubGet ⟨"e", some (.arrayLit [.stringE "a", .stringE "b"] 0),
        0, [], false⟩ .undefV) ⟨[(0, [.closure (.number 1)])], [], [], 1⟩).1 =
      .ok (.str "b") ∧
    ((go ⟨[], []⟩ [] 20 (.pubGet ⟨"e", some (.arrayLit [.stringE "a", .stringE "b"] 0),
        0, [], false⟩ .undefV) ⟨[(0, [.closure (.number 1)])], [], [], 1⟩).2).getArr 0 =
      some [] ∧
    (go ⟨[], []⟩ [] 20 (.pubGet ⟨"e", some (.arrayLit [.stringE "a", .stringE "b"] 0),
        0, [], false⟩ .undefV)
      ((go ⟨[], []⟩ [] 20 (.pubGet ⟨"e", some (.arrayLit [.stringE "a", .stringE "b"] 0),
        0, [], false⟩ .undefV) ⟨[(0, [.closure (.number 1)])], [], [], 1⟩).2)).1 =
      .ok (.str "a") :=
  ⟨rfl, rfl, rfl⟩

/-- Claim C5 (code bug): a failing public resolution is not atomic.
`complexString` clears its in-progress marker only on the success path, so
when a part fails (here: interpolating the number `5`, which the drive loop
cannot turn into a string and therefore throws a TypeError), the marker stays
set, and an identical second call on the same compiled entity fails with
CyclicReference instead of reproducing the original error. -/
theorem failed_resolution_leaves_marker :
    (go ⟨[], []⟩ [("x", .num 5)] 30 (.pubGet ⟨"e",
        some (.complexString 0 [.variableE "x"]), 0, [], false⟩ .undefV)
        ⟨[(0, [])], [], [], 1⟩).1 = .error .typeError ∧
    (go ⟨[], []⟩ [("x", .num 5)] 30 (.pubGet ⟨"e",
        some (.complexString 0 [.variableE "x"]), 0, [], false⟩ .undefV)
        ⟨[(0, [])], [], [], 1⟩).2.dirty = [0] ∧
    (go ⟨[], []⟩ [("x", .num 5)] 30 (.pubGet ⟨"e",
        some (.complexString 0 [.variableE "x"]), 0, [], false⟩ .undefV)
      ((go ⟨[], []⟩ [("x", .num 5)] 30 (.pubGet ⟨"e",
        some (.complexString 0 [.variableE "x"]), 0, [], false⟩ .undefV)
        ⟨[(0, [])], [], [], 1⟩).2)).1 = .error .cyclic :=
  ⟨rfl, rfl, rfl⟩

theorem bindArgsFrom_not_mem (st : St) (a : Value) :
    ∀ (ps : List String) (i : Nat) (acc : List (String × Value)) (p : String),
    p ∉ ps → assoc (bindArgsFrom st a i ps acc) p = assoc acc p := by
  intro ps
  induction ps with
  | nil =>
    intro i acc p _
    rfl
  | cons q t ih =>
    intro i acc p hp
    simp only [bindArgsFrom]
    rw [ih (i + 1) _ p (fun hm => hp (by simp [hm]))]
    exact assoc_setK_ne _ _ _ _ (fun he => hp (by simp [he]))

theorem bindArgsFrom_get (st : St) (a : Value) :
    ∀ (ps : List String) (i : Nat) (acc : List (String × Value)) (j : Nat)
      (h : j < ps.length), ps.Nodup →
    assoc (bindArgsFrom st a i ps acc) (ps.get ⟨j, h⟩) = some (indexGet st a (i + j)) := by
  intro ps
  induction ps with
  | nil =>
    intro i acc j h
    exact absurd h (by simp)
  | cons q t ih =>
    intro i acc j h hnd
    cases j with
    | zero =>
      simp only [List.get, bindArgsFrom]
      rw [bindArgsFrom_not_mem st a t (i + 1) _ q (by simpa using (List.nodup_cons.mp hnd).1)]
      rw [assoc_setK_self]
      rfl
    | succ j =>
      simp only [List.get, bindArgsFrom]
      rw [ih (i + 1) _ j (by simpa using h) (List.nodup_cons.mp hnd).2]
      have : i + 1 + j = i + (j + 1) := by omega
      rw [this]

/-- Claim C7: macro invocation allocates a fresh locals object, binds the
declared parameter names positionally (with no arity check: a parameter
beyond the supplied arguments is bound to the undefined-sentinel), and
evaluates the body against that fresh mapping together with the unchanged
context and caller data — the caller's own locals appear nowhere
(conjunct 1 exhibits the complete reduction; conjuncts 2 and 3 show each
parameter is bound to its positional argument and that positions past the
end of the argument array are the undefined-sentinel). -/
theorem macro_underapplication :
    (∀ (env : Env) (data : List (String × Value)) (fuel : Nat) (ps : List String)
      (body : Expr) (r : Nat) (st : St),
      go env data (fuel + 1) (.call1 (.fn ps body) (.arr r)) st =
        go env data fuel (.expr body (.objRef st.next) .undefV)
          { st with objs := setK st.objs st.next (bindArgs st ps (.arr r)),
                    next := st.next + 1 }) ∧
    (∀ (st : St) (a : Value) (ps : List String) (i : Nat) (h : i < ps.length),
      ps.Nodup →
      assoc (bindArgs st ps a) (ps.get ⟨i, h⟩) = some (indexGet st a i)) ∧
    (∀ (st : St) (r : Nat) (args : List Value) (i : Nat),
      st.getArr r = some args → args.length ≤ i →
      indexGet st (.arr r) i = .undefV) := by
  refine ⟨?_, ?_, ?_⟩
  · intro env data fuel ps body r st
    cases ps <;> rfl
  · intro st a ps i h hnd
    have := bindArgsFrom_get st a ps 0 [] i h hnd
    simpa using this
  · intro st r args i hr hlen
    simp [indexGet, hr, List.getElem?_eq_none hlen]

theorem macro_underapplication_witness :
    go ⟨[], []⟩ [] (3 + 1) (.call1 (.fn ["a", "b"] (.variableE "b")) (.arr 0))
        ⟨[(0, [.str "A"])], [], [], 1⟩ =
      go ⟨[], []⟩ [] 3 (.expr (.variableE "b") (.objRef 1) .undefV)
        ⟨[(0, [.str "A"])], [(1, [("a", .str "A"), ("b", .undefV)])], [], 2⟩ ∧
    assoc (bindArgs ⟨[(0, [.str "A"])], [], [], 1⟩ ["a", "b"] (.arr 0)) "b" =
      some .undefV := by
  constructor
  · have h := macro_underapplication.1 ⟨[], []⟩ [] 3 ["a", "b"] (.variableE "b") 0
      ⟨[(0, [.str "A"])], [], [], 1⟩
    rw [h]
    rfl
  · have h := macro_underapplication.2.1 ⟨[(0, [.str "A"])], [], [], 1⟩ (.arr 0)
      ["a", "b"] 1 (by simp) (by simp)
    simpa using h

/-- Claim C9: the variable evaluator tests its local binding with
`!== undefined`, so a local binding holding the undefined-sentinel is
indistinguishable from an absent one and the lookup falls through to the
caller data (conjunct 1).  Composed with macro under-application, a parameter
bound to the undefined-sentinel is therefore observed inside the body as the
caller-data value of the same name: invoking the two-parameter macro
`(a, b) => b` with a single argument yields `data["b"]`, not the sentinel
(conjunct 2). -/
theorem variable_undefined_falls_through :
    (∀ (env : Env) (data : List (String × Value)) (fuel : Nat) (name : String)
      (locals index : Value) (st : St),
      st.getProp locals name = .undefV →
      go env data (fuel + 1) (.expr (.variableE name) locals index) st =
        (.ok (lookupD data name), st)) ∧
    (∀ (env : Env) (data : List (String × Value)) (fuel : Nat) (v : Value),
      go env data (fuel + 2) (.call1 (.fn ["a", "b"] (.variableE "b")) (.arr 0))
          ⟨[(0, [v])], [], [], 1⟩ =
        (.ok (lookupD data "b"),
         ⟨[(0, [v])], [(1, [("a", v), ("b", .undefV)])], [], 2⟩)) := by
  constructor
  · intro env data fuel name locals index st h
    simp only [go, h]
  · intro env data fuel v
    rfl

theorem variable_undefined_falls_through_witness :
    go ⟨[], []⟩ [("x", .str "D")] (4 + 1) (.expr (.variableE "x") (.objRef 1) .undefV)
        ⟨[], [(1, [("x", .undefV)])], [], 2⟩ =
      (.ok (.str "D"), ⟨[], [(1, [("x", .undefV)])], [], 2⟩) ∧
    go ⟨[], []⟩ [("b", .str "B")] (1 + 2)
        (.call1 (.fn ["a", "b"] (.variableE "b")) (.arr 0)) ⟨[(0, [.str "A"])], [], [], 1⟩ =
      (.ok (.str "B"), ⟨[(0, [.str "A"])], [(1, [("a", .str "A"), ("b", .undefV)])], [], 2⟩) := by
  constructor
  · have h := variable_undefined_falls_through.1 ⟨[], []⟩ [("x", .str "D")] 4 "x"
      (.objRef 1) .undefV ⟨[], [(1, [("x", .undefV)])], [], 2⟩ rfl
    rw [h]
    rfl
  · have h := variable_undefined_falls_through.2 ⟨[], []⟩ [("b", .str "B")] 1 (.str "A")
    rw [h]
    rfl

mutual
theorem compileN_wk (n : Node) (h : wkN n = true) (k : Nat) :
    ∃ e k2, compileN n k = .ok (e, k2) := by
  cases n with
  | identifier nm => exact ⟨_, _, rfl⟩
  | thisN => exact ⟨_, _, rfl⟩
  | variableN nm => exact ⟨_, _, rfl⟩
  | globalN nm => exact ⟨_, _, rfl⟩
  | numberN c => exact ⟨_, _, rfl⟩
  | stringN c => exact ⟨_, _, rfl⟩
  | arrayN dflts content =>
    simp only [wkN] at h
    obtain ⟨ces, k1, hl⟩ := compileListN_wk content h k
    exact ⟨.arrayLit ces (arrayDefaultKey dflts ces.length), k1, by simp [compileN, hl]⟩
  | hashN content =>
    simp only [wkN] at h
    obtain ⟨ces, k1, hl⟩ := compileListN_wk content h k
    exact ⟨.hashLit (((content.map elemKey).zip ces).foldl
        (fun acc p => setK acc p.1 p.2) [])
        (hashDefaultKey (content.map (fun c => (elemKey c, elemDflt c)))), k1,
      by simp [compileN, hl]⟩
  | keyValuePair id d v =>
    simp only [wkN] at h
    obtain ⟨e1, k1, h1⟩ := compileN_wk v h k
    exact ⟨e1, k1, by simp [compileN, h1]⟩
  | complexStrN content =>
    simp only [wkN] at h
    obtain ⟨ces, k1, hl⟩ := compileListN_wk content h (k + 1)
    exact ⟨.complexString k ces, k1, by simp [compileN, hl]⟩
  | unaryN op o =>
    simp only [wkN] at h
    obtain ⟨e1, k1, h1⟩ := compileN_wk o h k
    exact ⟨.unary op e1, k1, by simp [compileN, h1]⟩
  | binaryN op l r =>
    simp only [wkN, Bool.and_eq_true] at h
    obtain ⟨e1, k1, h1⟩ := compileN_wk l h.1 k
    obtain ⟨e2, k2, h2⟩ := compileN_wk r h.2 k1
    exact ⟨.binary op e1 e2, k2, by simp [compileN, h1, h2]⟩
  | logicalN op l r =>
    simp only [wkN, Bool.and_eq_true] at h
    obtain ⟨e1, k1, h1⟩ := compileN_wk l h.1 k
    by_cases hop : op = ""
    · exact ⟨e1, k1, by simp [compileN, h1, hop]⟩
    · have hr : wkN r = true := by
        have h2 := h.2
        rw [Bool.or_eq_true] at h2
        rcases h2 with h2 | h2
        · exact absurd (by simpa using h2) hop
        · exact h2
      obtain ⟨e2, k2, h2⟩ := compileN_wk r hr k1
      exact ⟨.logical op e1 e2, k2, by simp [compileN, h1, h2, hop]⟩
  | conditionalN t c a =>
    simp only [wkN, Bool.and_eq_true] at h
    obtain ⟨e1, k1, h1⟩ := compileN_wk t h.1.1 k
    obtain ⟨e2, k2, h2⟩ := compileN_wk c h.1.2 k1
    obtain ⟨e3, k3, h3⟩ := compileN_wk a h.2 k2
    exact ⟨.conditional e1 e2 e3, k3, by simp [compileN, h1, h2, h3]⟩
  | callN callee args =>
    simp only [wkN, Bool.and_eq_true] at h
    obtain ⟨e1, k1, h1⟩ := compileN_wk callee h.1 k
    obtain ⟨ces, k2, h2⟩ := compileListN_wk args h.2 k1
    exact ⟨.call e1 ces, k2, by simp [compileN, h1, h2]⟩
  | propertyN ex computed nm pn =>
    simp only [wkN, Bool.and_eq_true] at h
    obtain ⟨e1, k1, h1⟩ := compileN_wk ex h.1 k
    cases computed with
    | false => exact ⟨.property e1 false nm (.stringE ""), k1, by simp [compileN, h1]⟩
    | true =>
      have hp : wkN pn = true := by simpa using h.2
      obtain ⟨e2, k2, h2⟩ := compileN_wk pn hp k1
      exact ⟨.property e1 true nm e2, k2, by simp [compileN, h1, h2]⟩
  | attributeN ex computed nm an =>
    simp only [wkN, Bool.and_eq_true] at h
    obtain ⟨e1, k1, h1⟩ := compileN_wk ex h.1 k
    cases computed with
    | false => exact ⟨.attributeE e1 false nm (.stringE ""), k1, by simp [compileN, h1]⟩
    | true =>
      have hp : wkN an = true := by simpa using h.2
      obtain ⟨e2, k2, h2⟩ := compileN_wk an hp k1
      exact ⟨.attributeE e1 true nm e2, k2, by simp [compileN, h1, h2]⟩
  | unknown ty => simp [wkN] at h

theorem compileListN_wk (l : List Node) (h : wkL l = true) (k : Nat) :
    ∃ es k2, compileListN l k = .ok (es, k2) := by
  cases l with
  | nil => exact ⟨_, _, rfl⟩
  | cons n t =>
    simp only [wkL, Bool.and_eq_true] at h
    obtain ⟨e1, k1, h1⟩ := compileN_wk n h.1 k
    obtain ⟨es, k2, h2⟩ := compileListN_wk t h.2 k1
    exact ⟨e1 :: es, k2, by simp [compileListN, h1, h2]⟩
end

/-- Claim C8 (corrected): compiling any node whose kind tag lies outside the
`EXPRESSION_TYPES` dispatch table fails with MalformedNode (conjunct 1); and
compilation of a node succeeds in producing an evaluator provided every node
the compiler dispatches on — the node itself and all the descendants it
actually compiles — has a recognized kind (conjunct 2).  A recognized kind
at the root alone is not enough: see the counterexample theorem. -/
theorem compile_dispatch_malformed :
    (∀ (n : Node), n.kind ∉ recognizedKinds → ∀ (k : Nat),
      compileN n k = .error .malformedNode) ∧
    (∀ (n : Node), wkN n = true → ∀ (k : Nat),
      ∃ e k2, compileN n k = .ok (e, k2)) := by
  constructor
  · intro n hn k
    cases n with
    | identifier nm => exact absurd (by simp [Node.kind, recognizedKinds]) hn
    | thisN => exact absurd (by simp [Node.kind, recognizedKinds]) hn
    | variableN nm => exact absurd (by simp [Node.kind, recognizedKinds]) hn
    | globalN nm => exact absurd (by simp [Node.kind, recognizedKinds]) hn
    | numberN c => exact absurd (by simp [Node.kind, recognizedKinds]) hn
    | stringN c => exact absurd (by simp [Node.kind, recognizedKinds]) hn
    | arrayN dflts content => exact absurd (by simp [Node.kind, recognizedKinds]) hn
    | hashN content => exact absurd (by simp [Node.kind, recognizedKinds]) hn
    | keyValuePair id d v => exact absurd (by simp [Node.kind, recognizedKinds]) hn
    | complexStrN content => exact absurd (by simp [Node.kind, recognizedKinds]) hn
    | unaryN op o => exact absurd (by simp [Node.kind, recognizedKinds]) hn
    | binaryN op l r => exact absurd (by simp [Node.kind, recognizedKinds]) hn
    | logicalN op l r => exact absurd (by simp [Node.kind, recognizedKinds]) hn
    | conditionalN t c a => exact absurd (by simp [Node.kind, recognizedKinds]) hn
    | callN callee args => exact absurd (by simp [Node.kind, recognizedKinds]) hn
    | propertyN ex c nm pn => exact absurd (by simp [Node.kind, recognizedKinds]) hn
    | attributeN ex c nm an => exact absurd (by simp [Node.kind, recognizedKinds]) hn
    | unknown ty => rfl
  · exact compileN_wk

/-- Claim C8 counterexample: a node whose own kind is in the recognized set
(`unaryExpression`) nevertheless fails to compile when a child's kind is
unrecognized, refuting the claim that every node with a recognized kind
compiles successfully. -/
theorem compile_dispatch_counterexample :
    (Node.unaryN "-" (.unknown "bogus")).kind ∈ recognizedKinds ∧
    compileN (.unaryN "-" (.unknown "bogus")) 0 = .error .malformedNode := by
  constructor
  · simp [Node.kind, recognizedKinds]
  · rfl

theorem compile_dispatch_malformed_witness :
    compileN (.unknown "bogus") 0 = .error .malformedNode ∧
    ∃ e k2, compileN (.identifier "n") 0 = .ok (e, k2) := by
  constructor
  · exact compile_dispatch_malformed.1 (.unknown "bogus")
      (by simp [Node.kind, recognizedKinds]) 0
  · exact compile_dispatch_malformed.2 (.identifier "n") rfl 0

/-- Claim C10: the `for (…; elem = ast[i]; i++)` loop of `compile` stops at
the first falsy element of the definition sequence — everything after it is
neither compiled nor inserted, so the result is exactly that of compiling the
prefix before the falsy entry (conjunct 1, unconditional: if the prefix
itself contains a falsy entry both sides stop there).  Recognized
definitions before the cutoff are inserted under their ids with last-wins
overwrite on duplicates (conjunct 2). -/
theorem compile_stops_at_falsy :
    (∀ (xs ys : List (Option TopEntry)) (obj : List (String × Value)) (k : Nat)
      (st : St),
      compileResource (xs ++ none :: ys) obj k st = compileResource xs obj k st) ∧
    (∀ (m1 m2 : FnDef) (i : String) (f1 f2 : Value) (obj : List (String × Value))
      (k k1 k2 : Nat) (st : St),
      m1.id = i → m2.id = i →
      compileFn m1 k = .ok (f1, k1) → compileFn m2 k1 = .ok (f2, k2) →
      compileResource [some (.mac m1), some (.mac m2)] obj k st =
        .ok (setK (setK obj i f1) i f2, k2, st) ∧
      assoc (setK (setK obj i f1) i f2) i = some f2) := by
  constructor
  · intro xs
    induction xs with
    | nil =>
      intro ys obj k st
      rfl
    | cons x t ih =>
      intro ys obj k st
      cases x with
      | none => rfl
      | some e =>
        cases e with
        | entity ed =>
          cases hce : compileEntity ed k st with
          | error er =>
            simp only [List.cons_append, compileResource, hce]
          | ok p =>
            obtain ⟨ent, k1, st1⟩ := p
            simp only [List.cons_append, compileResource, hce]
            exact ih ys _ _ _
        | mac md =>
          cases hcf : compileFn md k with
          | error er =>
            simp only [List.cons_append, compileResource, hcf]
          | ok p =>
            obtain ⟨f, k1⟩ := p
            simp only [List.cons_append, compileResource, hcf]
            exact ih ys _ _ _
        | other ty =>
          simp only [List.cons_append, compileResource]
          exact ih ys _ _ _
  · intro m1 m2 i f1 f2 obj k k1 k2 st hid1 hid2 hc1 hc2
    constructor
    · simp only [compileResource, hc1, hc2, hid1, hid2]
    · rw [assoc_setK_self]

theorem compile_stops_at_falsy_witness :
    compileResource [some (.other "comment"), none,
        some (.mac ⟨"m", [], .numberN 1⟩)] [] 0 ⟨[], [], [], 0⟩ =
      compileResource [some (.other "comment")] [] 0 ⟨[], [], [], 0⟩ ∧
    compileResource [some (.mac ⟨"m", [], .numberN 1⟩),
        some (.mac ⟨"m", [], .numberN 2⟩)] [] 0 ⟨[], [], [], 0⟩ =
      .ok (setK (setK [] "m" (.fn [] (.number 1))) "m" (.fn [] (.number 2)), 0,
           ⟨[], [], [], 0⟩) := by
  constructor
  · exact compile_stops_at_falsy.1 [some (.other "comment")]
      [some (.mac ⟨"m", [], .numberN 1⟩)] [] 0 ⟨[], [], [], 0⟩
  · exact (compile_stops_at_falsy.2 ⟨"m", [], .numberN 1⟩ ⟨"m", [], .numberN 2⟩ "m"
      (.fn [] (.number 1)) (.fn [] (.number 2)) [] 0 0 0 ⟨[], [], [], 0⟩
      rfl rfl rfl rfl).1
